import Mathlib

/-!
Verification development for the glaze bot (src/glaze_bot.py).

The submission store is a single JSON document.  We embed it at two levels:

* a typed level (`Doc`, `Glaze`, `Config`, `Meta`) over which the ledger /
  approval / scheduler / winner operations are defined, and
* a raw JSON level (`JVal`) for the load-time defaults merge
  (`_merge_defaults`), which manipulates untyped dictionaries.

Timestamps: the source stores ISO-8601 UTC strings (`iso_utc`) and both
sorts them lexicographically and compares their parses; for strings all
produced by `iso_utc` the two orders agree and are the chronological
order, so timestamps are embedded as `Nat` with the numeric order.
Calendar renderings of an instant (`month_key`, the scheduler's
`today_str`, the current London hour/minute) are supplied by the clock as
explicit arguments, exactly as the source reads them off `datetime.now`.

Python dictionaries are embedded as association lists in insertion order
(`alookup` / `aset`), and Python's stable `list.sort(key=...)` as the
stable insertion sort `sortByLe`.
-/

namespace Glazebot

/-- Lookup in an association list: first binding wins, like a Python dict
(whose keys are unique, so the first binding is the only one). -/
def alookup {κ α : Type} [DecidableEq κ] : List (κ × α) → κ → Option α
  | [], _ => none
  | (k, v) :: rest, j => if k = j then some v else alookup rest j
/-- Write `m[k] = v` on an association list: replace the first binding of
`k` in place, or append a new binding at the end — Python dict assignment
(existing keys keep their position, new keys go last). -/
def aset {κ α : Type} [DecidableEq κ] : List (κ × α) → κ → α → List (κ × α)
  | [], k, v => [(k, v)]
  | (k0, v0) :: rest, k, v =>
      if k0 = k then (k, v) :: rest else (k0, v0) :: aset rest k v
/-- Stable insertion step for `sortByLe`: `x` goes in front of the first
element it is `le`-below-or-equal to. -/
def insertByLe {α : Type} (le : α → α → Bool) (x : α) : List α → List α
  | [] => [x]
  | y :: ys => if le x y then x :: y :: ys else y :: insertByLe le x ys
/-- Stable sort by a boolean total preorder; on a total preorder this
agrees with Python's stable `list.sort(key=...)` (a stable sort by a
total preorder is unique). -/
def sortByLe {α : Type} (le : α → α → Bool) : List α → List α
  | [] => []
  | x :: xs => insertByLe le x (sortByLe le xs)
/-- Order on optional timestamps used by the winner tie-break sort: the
source sorts by `nth_time.get(rid, "9999-99-99")`, a sentinel larger than
every real timestamp, so a missing time compares largest. -/
def leN : Option Nat → Option Nat → Bool
  | _, none => true
  | none, some _ => false
  | some a, some b => a ≤ b
/-- Strict version of `leN`. -/
def ltN : Option Nat → Option Nat → Bool
  | some a, some b => a < b
  | some _, none => true
  | none, _ => false
/-- Daily-drop limit after `_get_daily_drop_settings` normalisation: a
positive count, or the literal string sentinel `"all"`. -/
inductive DropLimit : Type
  | all : DropLimit
  | count (n : Nat) : DropLimit
deriving DecidableEq, Repr
/-- Operator settings (`DEFAULT_DATA["config"]`, typed level). -/
structure Config : Type where
  drop_channel_id : Option Nat
  report_channel_id : Option Nat
  admin_role_ids : List Nat
  daily_drop_limit : DropLimit
  daily_drop_hour : Nat
  daily_drop_minute : Nat
  cooldown_hours : Nat
  enabled : Bool
  approvals_enabled : Bool
  approval_channel_id : Option Nat
deriving DecidableEq, Repr
/-- Scheduler idempotency markers (`DEFAULT_DATA["meta"]`). -/
structure Meta : Type where
  last_daily_drop_date : Option String
  last_monthly_announce : List (String × Nat)
deriving DecidableEq, Repr
/-- One submission record, as appended by `glaze_cmd`. -/
structure Glaze : Type where
  id : String
  sender_id : Nat
  recipient_id : Nat
  text : String
  created_at : Nat
  month_key : String
  dropped_at : Option Nat
  deleted : Bool
  reported : Bool
  approved : Bool
  approval_status : String
  approval_message : Option (Nat × Nat)
  approved_at : Option Nat
  approved_by : Option Nat
  declined_at : Option Nat
  declined_by : Option Nat
deriving DecidableEq, Repr
/-- The persisted JSON document, typed level (`DEFAULT_DATA` shape). -/
structure Doc : Type where
  config : Config
  meta : Meta
  cooldowns : List (Nat × Nat)
  glazes : List Glaze
  wins : List (Nat × Nat)
deriving DecidableEq, Repr
/-- Scheduler / random-drop candidate filter:
`g.get("approved") and not g.get("deleted") and not g.get("dropped_at")`. -/
def candidateB (g : Glaze) : Bool :=
  g.approved && !g.deleted && g.dropped_at.isNone
/-- The pending candidates, in stored order (both `glaze_scheduler` and
`randomdrop_cmd` build this same list comprehension). -/
def pendingCandidates (d : Doc) : List Glaze :=
  d.glazes.filter candidateB
/-- Ascending creation order on glazes (`key=lambda x: x.get("created_at", "")`). -/
def leCreated (a b : Glaze) : Bool :=
  a.created_at ≤ b.created_at
/-- A recipient listing as built by `open_my_glazes` / `send_glaze_mail` /
`myglaze_cmd`: approved, not deleted, for that recipient, newest first
(Python stable sort with `reverse=True`). -/
def listForRecipient (d : Doc) (rid : Nat) : List Glaze :=
  sortByLe (fun a b => b.created_at ≤ a.created_at)
    (d.glazes.filter fun g => g.recipient_id == rid && g.approved && !g.deleted)
/-- The submissions counted by `glazeleaderboard_cmd` for the top-glazers
tally: `not g.get("deleted") and g.get("approved")`. -/
def leaderboardSent (d : Doc) : List Glaze :=
  d.glazes.filter fun g => !g.deleted && g.approved
/-- Cooldown duration in seconds: `_get_cooldown_td` clamps the configured
hours to `max(1, min(168, hours))` and builds a `timedelta` of hours. -/
def cooldownSeconds (d : Doc) : Nat :=
  3600 * (max 1 (min 168 d.config.cooldown_hours))
/-- `DEFAULT_DAILY_DROP_HOUR` of the source (17:00 London). -/
def DEFAULT_DAILY_DROP_HOUR : Nat := 17

/-- `DEFAULT_DAILY_DROP_MINUTE` of the source. -/
def DEFAULT_DAILY_DROP_MINUTE : Nat := 0

/-- Python `v or dflt` on an integer: 0 is falsy and falls back to the
default. -/
def pyOrNat (v dflt : Nat) : Nat :=
  if v = 0 then dflt else v

/-- Embedding of `_get_daily_drop_settings`: the stored hour and minute go
through `cfg.get(...) or DEFAULT` — so a stored 0 hour is coerced to the
default 17 by Python falsiness (the stored 0 minute coincides with its
default) — then hour is clamped to 0–23 and minute to 0–59, and a numeric
limit is forced up to at least 1. -/
def get_daily_drop_settings (d : Doc) : Nat × Nat × DropLimit :=
  let hour := min 23 (pyOrNat d.config.daily_drop_hour DEFAULT_DAILY_DROP_HOUR)
  let minute := min 59 (pyOrNat d.config.daily_drop_minute DEFAULT_DAILY_DROP_MINUTE)
  let limit := match d.config.daily_drop_limit with
    | DropLimit.all => DropLimit.all
    | DropLimit.count n => DropLimit.count (max 1 n)
  (hour, minute, limit)
/-- Embedding of Python `str.strip()`: drop whitespace from both ends
(structurally, so that concrete instances compute). -/
def pyStrip (s : String) : String :=
  String.mk (((s.data.dropWhile Char.isWhitespace).reverse.dropWhile
    Char.isWhitespace).reverse)

/-- Find the first glaze with a given id:
`next((x for x in data["glazes"] if x["id"] == gid), None)`. -/
def findById : List Glaze → String → Option Glaze
  | [], _ => none
  | g :: gs, gid => if g.id = gid then some g else findById gs gid
/-- Mutate the first glaze with a given id in place, as the source does on
the object returned by `next(...)`. -/
def updateById : List Glaze → String → (Glaze → Glaze) → List Glaze
  | [], _, _ => []
  | g :: gs, gid, f => if g.id = gid then f g :: gs else g :: updateById gs gid f
/-- Outcome of the `/glaze` command core (`glaze_cmd`), paired with the
resulting store. -/
inductive SubmitOutcome : Type
  | selfTarget : SubmitOutcome
  | tooShort : SubmitOutcome
  | tooLong : SubmitOutcome
  | disabled : SubmitOutcome
  | cooldown : SubmitOutcome
  | ok (g : Glaze) : SubmitOutcome
deriving DecidableEq, Repr
/-- The record `glaze_cmd` appends: `mkNow` is `month_key(created)`, the
calendar rendering of `now` supplied by the clock.  When approvals are
enabled the record ends up `pending`/un-approved (the source first builds
it approved and then overwrites those two fields before saving). -/
def newGlaze (d : Doc) (sender recipient : Nat) (message : String)
    (now : Nat) (mkNow : String) (gid : String) : Glaze :=
  {
  id := gid, sender_id := sender, recipient_id := recipient,
  text := pyStrip message,
  created_at := now, month_key := mkNow, dropped_at := none,
  deleted := false, reported := false,
  approved := !d.config.approvals_enabled,
  approval_status := if d.config.approvals_enabled then "pending" else "approved",
  approval_message := none, approved_at := none, approved_by := none,
  declined_at := none, declined_by := none }

/-- The store-relevant core of `glaze_cmd`, with the checks in source
order: self-target, trimmed length below 10, above 500, submissions
toggle, cooldown; on success append the new glaze and stamp the sender
cooldown. -/
def glaze_submit (d : Doc) (sender recipient : Nat) (message : String)
    (now : Nat) (mkNow : String) (gid : String) : SubmitOutcome × Doc :=
  if sender = recipient then (SubmitOutcome.selfTarget, d) else
  if (pyStrip message).length < 10 then (SubmitOutcome.tooShort, d) else
  if (pyStrip message).length > 500 then (SubmitOutcome.tooLong, d) else
  if !d.config.enabled then (SubmitOutcome.disabled, d) else
  if (match alookup d.cooldowns sender with
      | some last => decide (now - last < cooldownSeconds d)
      | none => false) then (SubmitOutcome.cooldown, d) else
  (SubmitOutcome.ok (newGlaze d sender recipient message now mkNow gid),
   { d with glazes := d.glazes ++ [newGlaze d sender recipient message now mkNow gid],
            cooldowns := aset d.cooldowns sender now })
/-- Result of a moderation button (`ApprovalView.approve_btn` /
`decline_btn`): the updated store, or the no-op outcomes. -/
inductive ModResult : Type
  | ok (d : Doc) : ModResult
  | notFound : ModResult
  | alreadyProcessed : ModResult
deriving DecidableEq, Repr
/-- Field mutation performed by `approve_btn` on the found glaze. -/
def approveMut (actor : Nat) (now : Nat) (g : Glaze) : Glaze :=
  { g with approved := true, approval_status := "approved",
           approved_at := some now, approved_by := some actor }
/-- Field mutation performed by `decline_btn` on the found glaze; it also
soft-deletes the record so it never appears anywhere. -/
def declineMut (actor : Nat) (now : Nat) (g : Glaze) : Glaze :=
  { g with approved := false, approval_status := "declined",
           declined_at := some now, declined_by := some actor, deleted := true }
/-- Embedding of `ApprovalView.approve_btn` after the admin check: missing
id is reported, a non-`pending` status is an already-processed no-op,
otherwise the glaze is approved and the store saved. -/
def approve_glaze (d : Doc) (gid : String) (actor : Nat) (now : Nat) : ModResult :=
  match findById d.glazes gid with
  | none => ModResult.notFound
  | some g =>
      if g.approval_status ≠ "pending" then ModResult.alreadyProcessed
      else ModResult.ok { d with glazes := updateById d.glazes gid (approveMut actor now) }
/-- Embedding of `ApprovalView.decline_btn` after the admin check. -/
def decline_glaze (d : Doc) (gid : String) (actor : Nat) (now : Nat) : ModResult :=
  match findById d.glazes gid with
  | none => ModResult.notFound
  | some g =>
      if g.approval_status ≠ "pending" then ModResult.alreadyProcessed
      else ModResult.ok { d with glazes := updateById d.glazes gid (declineMut actor now) }
/-- Embedding of `DeleteScoldView.delete_scold` after the admin check:
`none` when the glaze is missing or already deleted, otherwise the store
with the glaze soft-deleted. -/
def delete_scold (d : Doc) (gid : String) : Option Doc :=
  match findById d.glazes gid with
  | none => none
  | some g =>
      if g.deleted then none
      else some { d with glazes := updateById d.glazes gid (fun x => { x with deleted := true }) }
/-- Embedding of `report_glaze`: `none` when the glaze is missing or
deleted, otherwise the store with the reported flag set. -/
def report_glaze (d : Doc) (gid : String) : Option Doc :=
  match findById d.glazes gid with
  | none => none
  | some g =>
      if g.deleted then none
      else some { d with glazes := updateById d.glazes gid (fun x => { x with reported := true }) }
/-- Embedding of `randomdrop_cmd` after the admin check: requires the
feature toggle and a configured drop channel, picks the `k`-th pending
candidate (the uniform choice of `random.choice` is the external `k`),
marks only it dropped, and saves without touching `meta`. -/
def random_drop (d : Doc) (k : Nat) (now : Nat) : Option Doc :=
  if !d.config.enabled then none else
  if d.config.drop_channel_id.isNone then none else
  match (pendingCandidates d).get? k with
  | none => none
  | some g =>
      some { d with glazes := updateById d.glazes g.id (fun x => { x with dropped_at := some now }) }
/-- Embedding of the daily-drop section of `glaze_scheduler` (one tick):
after the enabled / drop-channel guards, when the current London
hour:minute equals the configured time and the idempotency date differs
from today, sort the pending candidates oldest first, deliver up to the
configured limit (all of them on the `"all"` sentinel) marking each
`dropped_at`, then set `meta.last_daily_drop_date` to today and save once.
Returns the resulting store and the delivered batch. -/
def dailyTick (d : Doc) (nowHour nowMinute : Nat) (todayStr : String) (now : Nat) :
    Doc × List Glaze :=
  if !d.config.enabled then (d, []) else
  if d.config.drop_channel_id.isNone then (d, []) else
  let s := get_daily_drop_settings d
  if nowHour = s.1 ∧ nowMinute = s.2.1 then
    if d.meta.last_daily_drop_date ≠ some todayStr then
      let pending := sortByLe leCreated (pendingCandidates d)
      let to_drop := match s.2.2 with
        | DropLimit.all => pending
        | DropLimit.count n => pending.take (min n pending.length)
      let batchIds := to_drop.map Glaze.id
      ({ d with
          glazes := d.glazes.map fun g =>
            if batchIds.contains g.id then { g with dropped_at := some now } else g,
          meta := { d.meta with last_daily_drop_date := some todayStr } },
       to_drop)
    else (d, [])
  else (d, [])
/-- A sequence of scheduler ticks within one calendar day: fold `dailyTick`
over (hour, minute, now) triples, counting the ticks that released a
non-empty batch. -/
def runTicks (todayStr : String) : Doc → List (Nat × Nat × Nat) → Doc × Nat
  | d, [] => (d, 0)
  | d, t :: rest =>
      let r := dailyTick d t.1 t.2.1 todayStr t.2.2
      let rest2 := runTicks todayStr r.1 rest
      (rest2.1, (if r.2.isEmpty then 0 else 1) + rest2.2)
/-- One step of the per-recipient tally of `compute_month_winner`:
`counts[rid] = counts.get(rid, 0) + 1` on a dict in insertion order. -/
def bump : List (Nat × Nat) → Nat → List (Nat × Nat)
  | [], rid => [(rid, 1)]
  | (r, c) :: rest, rid =>
      if r = rid then (r, c + 1) :: rest else (r, c) :: bump rest rid
/-- The per-recipient counts of a glaze list, keys in first-occurrence
order as a Python dict builds them. -/
def buildCounts (gs : List Glaze) : List (Nat × Nat) :=
  gs.foldl (fun acc g => bump acc g.recipient_id) []
/-- The month filter of `compute_month_winner`:
`month_key == mk and approved and not deleted`. -/
def monthGlazes (d : Doc) (mk : String) : List Glaze :=
  d.glazes.filter fun g => g.month_key == mk && g.approved && !g.deleted
/-- The filtered month list in creation order (the in-place
`month_glazes.sort`). -/
def sortedMonth (d : Doc) (mk : String) : List Glaze :=
  sortByLe leCreated (monthGlazes d mk)
/-- Per-recipient counts of the month (insertion order of first receipt). -/
def countsOf (d : Doc) (mk : String) : List (Nat × Nat) :=
  buildCounts (sortedMonth d mk)
/-- `best = max(counts.values())` (0 on the empty month, where the source
has already returned `None`). -/
def bestOf (d : Doc) (mk : String) : Nat :=
  ((countsOf d mk).map Prod.snd).foldl max 0
/-- `tied = [rid for rid, c in counts.items() if c == best]`. -/
def tiedOf (d : Doc) (mk : String) : List Nat :=
  (countsOf d mk).filterMap fun rc =>
    if rc.2 = bestOf d mk then some rc.1 else none
/-- One glaze of the tie-break replay: skip recipients outside the running
map (initialised on the tied set), bump the running counter, and record
the first moment it reaches `best` in `nth_time` (an insertion-ordered
dict, embedded as an append). -/
def replayStep (best : Nat) (st : List (Nat × Nat) × List (Nat × Nat)) (g : Glaze) :
    List (Nat × Nat) × List (Nat × Nat) :=
  match alookup st.1 g.recipient_id with
  | none => st
  | some c =>
      let c1 := c + 1
      let nth := if c1 = best ∧ (alookup st.2 g.recipient_id).isNone
        then st.2 ++ [(g.recipient_id, g.created_at)]
        else st.2
      (aset st.1 g.recipient_id c1, nth)
/-- The `nth_time` dict after replaying the sorted month list with running
counters restricted to the tied set. -/
def replayNth (tied : List Nat) (best : Nat) (sorted : List Glaze) : List (Nat × Nat) :=
  (sorted.foldl (replayStep best) (tied.map fun r => (r, 0), [])).2
/-- `tied.sort(key=lambda rid: nth_time.get(rid, "9999-99-99"))` followed
by `tied[0]`, as an `Option` for the (unreachable) empty tie set. -/
def tieBreakWinner (sorted : List Glaze) (best : Nat) (tied : List Nat) : Option Nat :=
  let nth := replayNth tied best sorted
  (sortByLe (fun a b => leN (alookup nth a) (alookup nth b)) tied).head?
/-- Embedding of `compute_month_winner`. -/
def compute_month_winner (d : Doc) (mk : String) : Option (Nat × Nat) :=
  if (monthGlazes d mk).isEmpty then none
  else if (tiedOf d mk).length = 1 then
    ((tiedOf d mk).head?).map fun w => (w, bestOf d mk)
  else
    (tieBreakWinner (sortedMonth d mk) (bestOf d mk) (tiedOf d mk)).map
      fun w => (w, bestOf d mk)
/-- The store-mutating operations of the bot, for stating properties over
arbitrary interleavings. -/
inductive Op : Type
  | submit (sender recipient : Nat) (message : String) (now : Nat) (mkNow gid : String) : Op
  | approve (gid : String) (actor now : Nat) : Op
  | decline (gid : String) (actor now : Nat) : Op
  | modDelete (gid : String) : Op
  | report (gid : String) : Op
  | randomRelease (k now : Nat) : Op
  | tick (nowHour nowMinute : Nat) (todayStr : String) (now : Nat) : Op
deriving DecidableEq, Repr
/-- The store after one operation (failing operations leave it unchanged,
exactly as the source returns before saving). -/
def step (d : Doc) : Op → Doc
  | Op.submit s r m now mk gid => (glaze_submit d s r m now mk gid).2
  | Op.approve gid a now =>
      match approve_glaze d gid a now with
      | ModResult.ok e => e
      | _ => d
  | Op.decline gid a now =>
      match decline_glaze d gid a now with
      | ModResult.ok e => e
      | _ => d
  | Op.modDelete gid => (delete_scold d gid).getD d
  | Op.report gid => (report_glaze d gid).getD d
  | Op.randomRelease k now => (random_drop d k now).getD d
  | Op.tick h m today now => (dailyTick d h m today now).1
/-- Raw JSON values, for the untyped load-time merge.  Objects are field
lists in insertion order, as Python dicts. -/
inductive JVal : Type
  | null : JVal
  | bool (b : Bool) : JVal
  | num (n : Int) : JVal
  | str (s : String) : JVal
  | arr (xs : List JVal) : JVal
  | obj (fs : List (String × JVal)) : JVal
/-- Python `dst.update(src)`: assign each binding of `src` into `dst` in
order (existing keys keep their position, new keys append). -/
def objUpdate (dst src : List (String × JVal)) : List (String × JVal) :=
  src.foldl (fun acc kv => aset acc kv.1 kv.2) dst
/-- One iteration of the `_merge_defaults` loop body for the binding `kv`
of the loaded data. -/
def mstep (merged : List (String × JVal)) (kv : String × JVal) : List (String × JVal) :=
  match kv.2, alookup merged kv.1 with
  | JVal.obj src, some (JVal.obj dst) => aset merged kv.1 (JVal.obj (objUpdate dst src))
  | _, _ => aset merged kv.1 kv.2
/-- The default `config` dict of `DEFAULT_DATA`, raw level. -/
def DEFAULT_CONFIG_FIELDS : List (String × JVal) := [
  ("drop_channel_id", JVal.null),
  ("report_channel_id", JVal.null),
  ("admin_role_ids", JVal.arr []),
  ("daily_drop_limit", JVal.num 1),
  ("daily_drop_hour", JVal.num 17),
  ("daily_drop_minute", JVal.num 0),
  ("cooldown_hours", JVal.num 12),
  ("enabled", JVal.bool true),
  ("approvals_enabled", JVal.bool false),
  ("approval_channel_id", JVal.null)]

/-- `DEFAULT_DATA`, raw level. -/
def DEFAULT_DATA : List (String × JVal) := [
  ("config", JVal.obj DEFAULT_CONFIG_FIELDS),
  ("meta", JVal.obj [
    ("last_daily_drop_date", JVal.null),
    ("last_monthly_announce", JVal.obj [])]),
  ("cooldowns", JVal.obj []),
  ("glazes", JVal.arr []),
  ("wins", JVal.obj [])]
/-- Embedding of `_merge_defaults`: start from a deep copy of
`DEFAULT_DATA` and fold the loop body over the loaded bindings.  `load_data`
applies this to every document read back from storage, and `save_data`
writes the in-memory document verbatim, so a save/reload round trip is
exactly this function. -/
def merge_defaults (data : List (String × JVal)) : List (String × JVal) :=
  data.foldl mstep DEFAULT_DATA

/-- The creation timestamps of a recipient's glazes within a list, in list
order. -/
def occTimes (rid : Nat) (gs : List Glaze) : List Nat :=
  (gs.filter fun g => g.recipient_id == rid).map Glaze.created_at

/-- The moment a recipient's running counter over `gs` first reaches
`best`: the creation timestamp of their `best`-th glaze in `gs`, if any.
This is the specification-side reading of the tie-break replay. -/
def reachTime (best : Nat) (rid : Nat) (gs : List Glaze) : Option Nat :=
  (occTimes rid gs).get? (best - 1)

/-- An operation does not submit a brand-new glaze under the watched id
(fresh UUIDs in the source). -/
def opAvoids (gid : String) : Op → Prop
  | Op.submit _ _ _ _ _ g => g ≠ gid
  | _ => True

/-- A glaze record with typical fields, for concrete instances. -/
def baseGlaze : Glaze := {
  id := "g", sender_id := 1, recipient_id := 2, text := "thank you so much",
  created_at := 0, month_key := "2026-01", dropped_at := none,
  deleted := false, reported := false, approved := true,
  approval_status := "approved", approval_message := none,
  approved_at := none, approved_by := none,
  declined_at := none, declined_by := none }

/-- An approved undropped glaze to `rid` at time `t`. -/
def mkGlz (gid : String) (rid : Nat) (t : Nat) : Glaze :=
  { baseGlaze with id := gid, recipient_id := rid, created_at := t }

/-- A configuration with the drop channel set and defaults elsewhere. -/
def baseConfig : Config := {
  drop_channel_id := some 555, report_channel_id := none,
  admin_role_ids := [], daily_drop_limit := DropLimit.count 1,
  daily_drop_hour := 17, daily_drop_minute := 0, cooldown_hours := 12,
  enabled := true, approvals_enabled := false, approval_channel_id := none }

/-- An empty store with `baseConfig`. -/
def baseDoc : Doc := {
  config := baseConfig,
  meta := { last_daily_drop_date := none, last_monthly_announce := [] },
  cooldowns := [], glazes := [], wins := [] }

/-- Month `2026-01` with recipients 101, 102, 103 at two glazes each;
101 reaches two first (at time 10, before 20 and 30). -/
def exWinnerDoc : Doc := { baseDoc with glazes := [
  mkGlz "a1" 101 1, mkGlz "b1" 102 2, mkGlz "c1" 103 3,
  mkGlz "a2" 101 10, mkGlz "b2" 102 20, mkGlz "c2" 103 30] }

/-- Five pending candidates and a daily limit of 3. -/
def exSchedDoc : Doc := {
  baseDoc with
  config := { baseConfig with daily_drop_limit := DropLimit.count 3 },
  glazes := [mkGlz "s1" 11 5, mkGlz "s2" 12 1, mkGlz "s3" 13 4,
             mkGlz "s4" 14 2, mkGlz "s5" 15 3] }

/-- Five pending candidates with the `"all"` sentinel as the daily limit. -/
def exSchedAllDoc : Doc :=
  { exSchedDoc with
    config := { exSchedDoc.config with daily_drop_limit := DropLimit.all } }

/-- A pending (moderation-gated) glaze. -/
def exPendingGlz : Glaze :=
  { mkGlz "p1" 2 1 with approved := false, approval_status := "pending" }

/-- A store holding one pending (moderation-gated) glaze. -/
def exApprovalDoc : Doc := { baseDoc with glazes := [exPendingGlz] }

/-- A store with one soft-deleted glaze and one live one. -/
def exDeletedDoc : Doc := { baseDoc with glazes := [
  { mkGlz "d1" 2 1 with deleted := true }, mkGlz "d2" 3 2] }

/-- A raw stored document from an older schema: an unknown top-level key,
a partial `config`, and a non-empty glaze array. -/
def exLegacyData : List (String × JVal) := [
  ("legacy", JVal.num 7),
  ("config", JVal.obj [("cooldown_hours", JVal.num 24)]),
  ("glazes", JVal.arr [JVal.str "x"])]

/-- A store whose only sender last submitted at time 0. -/
def exCooldownDoc : Doc := { baseDoc with cooldowns := [(1, 0)] }

/-- A store whose operator configured the daily drop for midnight
(stored `daily_drop_hour = 0`), with one pending candidate. -/
def exMidnightDoc : Doc := {
  baseDoc with
  config := { baseConfig with daily_drop_hour := 0 },
  glazes := [mkGlz "m1" 21 1] }

/-- The batch a triggered daily drop delivers: the pending candidates
oldest first, truncated to the numeric limit (`pending[: min(int(limit),
len(pending))]`), or all of them on the `"all"` sentinel. -/
def dropBatch (d : Doc) : List Glaze :=
  match (get_daily_drop_settings d).2.2 with
  | DropLimit.all => sortByLe leCreated (pendingCandidates d)
  | DropLimit.count n =>
      (sortByLe leCreated (pendingCandidates d)).take
        (min n (sortByLe leCreated (pendingCandidates d)).length)

/-- The store a triggered daily drop saves: every batch member stamped
`dropped_at = now`, and the idempotency date set to today. -/
def markDropped (d : Doc) (now : Nat) (today : String) : Doc :=
  { d with
    glazes := d.glazes.map fun g =>
      if ((dropBatch d).map Glaze.id).contains g.id then { g with dropped_at := some now }
      else g,
    meta := { d.meta with last_daily_drop_date := some today } }

theorem alookup_aset_self {κ α : Type} [DecidableEq κ] (m : List (κ × α)) (k : κ) (v : α) :
    alookup (aset m k v) k = some v := by
  induction m with
  | nil => simp [aset, alookup]
  | cons kv rest ih =>
      obtain ⟨k0, v0⟩ := kv
      by_cases h : k0 = k <;> simp [aset, alookup, h, ih]
theorem alookup_aset_ne {κ α : Type} [DecidableEq κ] (m : List (κ × α)) (k j : κ) (v : α)
    (h : j ≠ k) : alookup (aset m k v) j = alookup m j := by
  induction m with
  | nil => simp [aset, alookup, Ne.symm h]
  | cons kv rest ih =>
      obtain ⟨k0, v0⟩ := kv
      by_cases h0 : k0 = k
      · subst h0
        simp [aset, alookup, Ne.symm h]
      · by_cases hj : k0 = j
        · subst hj
          simp [aset, alookup, h0]
        · simp [aset, alookup, h0, hj, ih]
/-- Lookup after a dict write, combined form. -/
theorem alookup_aset {κ α : Type} [DecidableEq κ] (m : List (κ × α)) (k j : κ) (v : α) :
    alookup (aset m k v) j = if j = k then some v else alookup m j := by
  by_cases h : j = k
  · subst h; simp [alookup_aset_self]
  · simp [h, alookup_aset_ne m k j v h]
theorem mem_insertByLe {α : Type} (le : α → α → Bool) (x a : α) (l : List α) :
    a ∈ insertByLe le x l ↔ a = x ∨ a ∈ l := by
  induction l with
  | nil => simp [insertByLe]
  | cons y ys ih =>
      by_cases h : le x y
      · simp [insertByLe, h]
      · simp [insertByLe, h, ih]
        tauto
theorem mem_sortByLe {α : Type} (le : α → α → Bool) (a : α) (l : List α) :
    a ∈ sortByLe le l ↔ a ∈ l := by
  induction l with
  | nil => simp [sortByLe]
  | cons x xs ih => simp [sortByLe, mem_insertByLe, ih]
theorem insertByLe_perm {α : Type} (le : α → α → Bool) (x : α) (l : List α) :
    (insertByLe le x l).Perm (x :: l) := by
  induction l with
  | nil => simp [insertByLe]
  | cons y ys ih =>
      by_cases h : le x y
      · simp [insertByLe, h]
      · simpa [insertByLe, h] using
          (List.Perm.trans (List.Perm.cons y ih) (List.Perm.swap x y ys))
theorem sortByLe_perm {α : Type} (le : α → α → Bool) (l : List α) :
    (sortByLe le l).Perm l := by
  induction l with
  | nil => simp [sortByLe]
  | cons x xs ih =>
      exact (insertByLe_perm le x (sortByLe le xs)).trans (List.Perm.cons x ih)
theorem length_sortByLe {α : Type} (le : α → α → Bool) (l : List α) :
    (sortByLe le l).length = l.length :=
  (sortByLe_perm le l).length_eq
theorem sortByLe_eq_nil_iff {α : Type} (le : α → α → Bool) (l : List α) :
    sortByLe le l = [] ↔ l = [] := by
  constructor
  · intro h
    have := length_sortByLe le l
    rw [h] at this
    exact List.length_eq_zero.mp this.symm
  · intro h; subst h; rfl
theorem pairwise_insertByLe {α : Type} (le : α → α → Bool)
    (htot : ∀ a b, le a b = true ∨ le b a = true)
    (htrans : ∀ a b c, le a b = true → le b c = true → le a c = true)
    (x : α) (l : List α) (hl : l.Pairwise (fun a b => le a b = true)) :
    (insertByLe le x l).Pairwise (fun a b => le a b = true) := by
  induction l with
  | nil => simp [insertByLe]
  | cons y ys ih =>
      rcases List.pairwise_cons.mp hl with ⟨hy, hys⟩
      by_cases hle : le x y
      · have hins : insertByLe le x (y :: ys) = x :: y :: ys := by
          simp [insertByLe, hle]
        rw [hins]
        refine List.pairwise_cons.mpr ⟨?_, hl⟩
        intro z hz
        rcases List.mem_cons.mp hz with rfl | hz'
        · exact hle
        · exact htrans _ _ _ hle (hy z hz')
      · have hins : insertByLe le x (y :: ys) = y :: insertByLe le x ys := by
          simp [insertByLe, hle]
        rw [hins]
        refine List.pairwise_cons.mpr ⟨?_, ih hys⟩
        intro z hz
        rcases (mem_insertByLe le x z ys).mp hz with hzx | hz'
        · rw [hzx]
          rcases htot x y with h1 | h1
          · exact absurd h1 (by simpa using hle)
          · exact h1
        · exact hy z hz'
theorem pairwise_sortByLe {α : Type} (le : α → α → Bool)
    (htot : ∀ a b, le a b = true ∨ le b a = true)
    (htrans : ∀ a b c, le a b = true → le b c = true → le a c = true)
    (l : List α) :
    (sortByLe le l).Pairwise (fun a b => le a b = true) := by
  induction l with
  | nil => simp [sortByLe]
  | cons x xs ih => exact pairwise_insertByLe le htot htrans x _ ih
/-- The head of the stable sort is `le`-minimal, for a total transitive `le`. -/
theorem sortByLe_head_min {α : Type} (le : α → α → Bool)
    (htot : ∀ a b, le a b = true ∨ le b a = true)
    (htrans : ∀ a b c, le a b = true → le b c = true → le a c = true)
    (l : List α) (hd : α) (hh : (sortByLe le l).head? = some hd) :
    ∀ y ∈ l, le hd y = true := by
  cases hsort : sortByLe le l with
  | nil => rw [hsort] at hh; simp at hh
  | cons a t =>
      rw [hsort] at hh
      obtain rfl : a = hd := by simpa using hh
      intro y hy
      have hy' : y ∈ a :: t := by
        rw [← hsort]
        exact (mem_sortByLe le y l).mpr hy
      rcases List.mem_cons.mp hy' with rfl | hy''
      · rcases htot y y with h1 | h1 <;> exact h1
      · have hp := pairwise_sortByLe le htot htrans l
        rw [hsort] at hp
        exact (List.pairwise_cons.mp hp).1 y hy''
/-- If `w` is the unique strict `le`-minimum of `l`, the stable sort puts it
first. -/
theorem sortByLe_head_eq_min {α : Type} (le : α → α → Bool)
    (htot : ∀ a b, le a b = true ∨ le b a = true)
    (htrans : ∀ a b c, le a b = true → le b c = true → le a c = true)
    (l : List α) (w : α) (hw : w ∈ l)
    (hmin : ∀ y ∈ l, y ≠ w → le y w = false) :
    (sortByLe le l).head? = some w := by
  cases hsort : sortByLe le l with
  | nil =>
      have : l = [] := (sortByLe_eq_nil_iff le l).mp hsort
      subst this
      simp at hw
  | cons a t =>
      have ha : a ∈ l := (mem_sortByLe le a l).mp (by rw [hsort]; exact List.mem_cons_self a t)
      have hmin' : ∀ y ∈ l, le a y = true :=
        sortByLe_head_min le htot htrans l a (by rw [hsort]; rfl)
      by_cases haw : a = w
      · subst haw; rfl
      · have h1 : le a w = true := hmin' w hw
        have h2 : le a w = false := hmin a ha haw
        rw [h1] at h2
        cases h2
theorem leN_total (a b : Option Nat) : leN a b = true ∨ leN b a = true := by
  cases a <;> cases b <;> simp [leN] <;> omega
theorem leN_trans (a b c : Option Nat) (h1 : leN a b = true) (h2 : leN b c = true) :
    leN a c = true := by
  cases a <;> cases b <;> cases c <;> simp [leN] at * <;> omega
theorem leN_of_ltN (a b : Option Nat) (h : ltN a b = true) : leN b a = false := by
  cases a <;> cases b <;> simp [ltN, leN] at * <;> omega

theorem findById_some (l : List Glaze) (gid : String) (g : Glaze)
    (h : findById l gid = some g) : g.id = gid ∧ g ∈ l := by
  induction l with
  | nil => simp [findById] at h
  | cons a as ih =>
      by_cases ha : a.id = gid
      · simp [findById, ha] at h
        subst h
        exact ⟨ha, List.mem_cons_self a as⟩
      · simp [findById, ha] at h
        rcases ih h with ⟨h1, h2⟩
        exact ⟨h1, List.mem_cons_of_mem a h2⟩

theorem findById_updateById (l : List Glaze) (gid : String) (f : Glaze → Glaze)
    (hf : ∀ g, (f g).id = g.id) :
    findById (updateById l gid f) gid = (findById l gid).map f := by
  induction l with
  | nil => simp [findById, updateById]
  | cons a as ih =>
      by_cases ha : a.id = gid
      · simp [findById, updateById, ha, hf a]
      · simp [findById, updateById, ha, ih]

theorem updateById_pred (l : List Glaze) (gid : String) (f : Glaze → Glaze)
    (Q : Glaze → Prop)
    (hl : ∀ g ∈ l, Q g) (hf : ∀ g, Q g → Q (f g)) :
    ∀ g2 ∈ updateById l gid f, Q g2 := by
  induction l with
  | nil => simp [updateById]
  | cons a as ih =>
      intro g2 hg2
      by_cases ha : a.id = gid
      · rw [updateById] at hg2
        simp only [ha, if_pos] at hg2
        rcases List.mem_cons.mp hg2 with rfl | hg2'
        · exact hf a (hl a (List.mem_cons_self a as))
        · exact hl g2 (List.mem_cons_of_mem a hg2')
      · rw [updateById] at hg2
        simp only [ha, if_neg, if_false] at hg2
        rcases List.mem_cons.mp hg2 with rfl | hg2'
        · exact hl g2 (List.mem_cons_self g2 as)
        · exact ih (fun g hg => hl g (List.mem_cons_of_mem a hg)) g2 hg2'

theorem findById_of_nodup (l : List Glaze) (g : Glaze)
    (hg : g ∈ l) (hnd : (l.map Glaze.id).Nodup) :
    findById l g.id = some g := by
  induction l with
  | nil => simp at hg
  | cons a as ih =>
      rcases List.mem_cons.mp hg with rfl | hg'
      · simp [findById]
      · rw [List.map_cons] at hnd
        rcases List.nodup_cons.mp hnd with ⟨hnotin, hnd'⟩
        have hne : a.id ≠ g.id := by
          intro he
          exact hnotin (he ▸ List.mem_map_of_mem Glaze.id hg')
        rw [findById, if_neg hne]
        exact ih hg' hnd'

theorem updateById_append (pre post : List Glaze) (g : Glaze) (gid : String)
    (f : Glaze → Glaze)
    (hpre : ∀ p ∈ pre, p.id ≠ gid) (hg : g.id = gid) :
    updateById (pre ++ g :: post) gid f = pre ++ f g :: post := by
  induction pre with
  | nil => simp [updateById, hg]
  | cons a as ih =>
      have ha : a.id ≠ gid := hpre a (List.mem_cons_self a as)
      rw [List.cons_append, updateById, if_neg ha, List.cons_append,
        ih (fun p hp => hpre p (List.mem_cons_of_mem a hp))]

theorem findById_map (l : List Glaze) (gid : String) (f : Glaze → Glaze)
    (hf : ∀ g, (f g).id = g.id) :
    findById (l.map f) gid = (findById l gid).map f := by
  induction l with
  | nil => simp [findById]
  | cons a as ih =>
      by_cases ha : a.id = gid
      · simp [findById, hf a, ha]
      · simp [findById, hf a, ha, ih]

theorem glaze_submit_meta (d : Doc) (s r : Nat) (m : String) (now : Nat)
    (mk gid : String) : ((glaze_submit d s r m now mk gid).2).meta = d.meta := by
  unfold glaze_submit
  repeat' split
  all_goals rfl

theorem glaze_submit_glazes_mem (d : Doc) (s r : Nat) (m : String) (now : Nat)
    (mk gid : String) :
    ∀ g2 ∈ ((glaze_submit d s r m now mk gid).2).glazes,
      g2 ∈ d.glazes ∨ g2.id = gid := by
  unfold glaze_submit
  repeat' split
  all_goals intro g2 hg2
  all_goals try exact Or.inl hg2
  rcases List.mem_append.mp hg2 with h1 | h1
  · exact Or.inl h1
  · rcases List.mem_singleton.mp h1 with rfl
    exact Or.inr rfl

theorem glaze_submit_cooldowns_mem (d : Doc) (s r : Nat) (m : String) (now : Nat)
    (mk gid : String) :
    ((glaze_submit d s r m now mk gid).2).cooldowns = d.cooldowns
    ∨ ((glaze_submit d s r m now mk gid).2).cooldowns = aset d.cooldowns s now := by
  unfold glaze_submit
  repeat' split
  all_goals first
    | exact Or.inl rfl
    | exact Or.inr rfl

theorem dailyTick_guard (e : Doc) (h m : Nat) (today : String) (now : Nat)
    (hg : e.meta.last_daily_drop_date = some today) :
    dailyTick e h m today now = (e, []) := by
  unfold dailyTick
  simp [hg]

theorem runTicks_guard (e : Doc) (today : String) (ticks : List (Nat × Nat × Nat))
    (hg : e.meta.last_daily_drop_date = some today) :
    runTicks today e ticks = (e, 0) := by
  induction ticks with
  | nil => rfl
  | cons t rest ih =>
      rw [runTicks, dailyTick_guard e t.1 t.2.1 today t.2.2 hg]
      simp [ih]

/-- C8: submitting to oneself always yields the distinct self-target
outcome and leaves the store (submissions and cooldown map included)
untouched, whatever the text, the time, the toggles, or the state. -/
theorem self_target_always_rejected (d : Doc) (s : Nat) (message : String)
    (now : Nat) (mkNow gid : String) :
    glaze_submit d s s message now mkNow gid = (SubmitOutcome.selfTarget, d) := by
  simp [glaze_submit]

/-- C7 (amended): with a recorded cooldown entry, a submit strictly inside
the configured window fails with the cooldown outcome and an unchanged
store, and a submit at or after the end of the window succeeds. -/
theorem cooldown_window (d : Doc) (s r last now1 now2 : Nat) (message : String)
    (mkNow gid1 gid2 : String)
    (hsr : s ≠ r)
    (hlen1 : 10 ≤ (pyStrip message).length)
    (hlen2 : (pyStrip message).length ≤ 500)
    (hen : d.config.enabled = true)
    (hlast : alookup d.cooldowns s = some last)
    (hin : now1 - last < cooldownSeconds d)
    (hout : cooldownSeconds d ≤ now2 - last) :
    glaze_submit d s r message now1 mkNow gid1 = (SubmitOutcome.cooldown, d)
    ∧ glaze_submit d s r message now2 mkNow gid2 =
        (SubmitOutcome.ok (newGlaze d s r message now2 mkNow gid2),
         { d with glazes := d.glazes ++ [newGlaze d s r message now2 mkNow gid2],
                  cooldowns := aset d.cooldowns s now2 }) := by
  constructor
  · simp [glaze_submit, hsr, hen, hlast, Nat.not_lt.mpr hlen1, Nat.not_lt.mpr hlen2, hin]
  · simp [glaze_submit, hsr, hen, hlast, Nat.not_lt.mpr hlen1, Nat.not_lt.mpr hlen2,
      Nat.not_lt.mpr hout]

/-- C7 counterexample: two in-window submits whose remaining waits differ
produce byte-identical outcomes, so the cooldown failure cannot carry the
remaining wait time. -/
theorem cooldown_no_remaining_counterexample :
    glaze_submit exCooldownDoc 1 2 "0123456789" 100 "2026-01" "n1"
      = glaze_submit exCooldownDoc 1 2 "0123456789" 200 "2026-01" "n1"
    ∧ (glaze_submit exCooldownDoc 1 2 "0123456789" 100 "2026-01" "n1").1
      = SubmitOutcome.cooldown
    ∧ cooldownSeconds exCooldownDoc - (100 - 0)
      ≠ cooldownSeconds exCooldownDoc - (200 - 0) := by
  refine ⟨by decide, by decide, by decide⟩

/-- C7 witness: with a 12-hour cooldown recorded at time 0, a submit at
time 100 is rejected on cooldown with the store unchanged, and a submit
at time 50000 succeeds. -/
theorem cooldown_window_witness :
    glaze_submit exCooldownDoc 1 2 "0123456789" 100 "2026-01" "w1"
      = (SubmitOutcome.cooldown, exCooldownDoc)
    ∧ (glaze_submit exCooldownDoc 1 2 "0123456789" 50000 "2026-01" "w2").1
      = SubmitOutcome.ok (newGlaze exCooldownDoc 1 2 "0123456789" 50000 "2026-01" "w2") := by
  have h := cooldown_window exCooldownDoc 1 2 0 100 50000 "0123456789" "2026-01" "w1" "w2"
    (by decide) (by decide) (by decide) (by decide) (by decide) (by decide) (by decide)
  exact ⟨h.1, by rw [h.2]⟩

/-- C4: declining a pending glaze soft-deletes it and marks it declined,
after which both decline and approve report it as already processed;
symmetrically an approved glaze can no longer be approved or declined, so
the two states are terminal. -/
theorem decline_terminal (d : Doc) (gid : String) (actor now a2 t2 : Nat) (g : Glaze)
    (hfind : findById d.glazes gid = some g)
    (hpend : g.approval_status = "pending") :
    decline_glaze d gid actor now =
      ModResult.ok { d with glazes := updateById d.glazes gid (declineMut actor now) }
    ∧ findById (updateById d.glazes gid (declineMut actor now)) gid
        = some (declineMut actor now g)
    ∧ (declineMut actor now g).deleted = true
    ∧ (declineMut actor now g).approval_status = "declined"
    ∧ decline_glaze { d with glazes := updateById d.glazes gid (declineMut actor now) } gid a2 t2
        = ModResult.alreadyProcessed
    ∧ approve_glaze { d with glazes := updateById d.glazes gid (declineMut actor now) } gid a2 t2
        = ModResult.alreadyProcessed
    ∧ approve_glaze d gid actor now =
        ModResult.ok { d with glazes := updateById d.glazes gid (approveMut actor now) }
    ∧ decline_glaze { d with glazes := updateById d.glazes gid (approveMut actor now) } gid a2 t2
        = ModResult.alreadyProcessed
    ∧ approve_glaze { d with glazes := updateById d.glazes gid (approveMut actor now) } gid a2 t2
        = ModResult.alreadyProcessed := by
  have hdid : ∀ x : Glaze, (declineMut actor now x).id = x.id := fun x => rfl
  have haid : ∀ x : Glaze, (approveMut actor now x).id = x.id := fun x => rfl
  have hfd : findById (updateById d.glazes gid (declineMut actor now)) gid
      = some (declineMut actor now g) := by
    rw [findById_updateById _ _ _ hdid, hfind]
    rfl
  have hfa : findById (updateById d.glazes gid (approveMut actor now)) gid
      = some (approveMut actor now g) := by
    rw [findById_updateById _ _ _ haid, hfind]
    rfl
  refine ⟨?_, hfd, rfl, rfl, ?_, ?_, ?_, ?_, ?_⟩
  · simp [decline_glaze, hfind, hpend]
  · simp [decline_glaze, hfd, declineMut]
  · simp [approve_glaze, hfd, declineMut]
  · simp [approve_glaze, hfind, hpend]
  · simp [decline_glaze, hfa, approveMut]
  · simp [approve_glaze, hfa, approveMut]

/-- C4 witness: the pending glaze `p1` is declined (soft-deleting it), and
a later decline on the same id is an already-processed no-op. -/
theorem decline_terminal_witness :
    (declineMut 9 100 exPendingGlz).deleted = true
    ∧ decline_glaze exApprovalDoc "p1" 9 100 =
        ModResult.ok { exApprovalDoc with
          glazes := updateById exApprovalDoc.glazes "p1" (declineMut 9 100) }
    ∧ decline_glaze { exApprovalDoc with
          glazes := updateById exApprovalDoc.glazes "p1" (declineMut 9 100) } "p1" 8 200
        = ModResult.alreadyProcessed := by
  have h := decline_terminal exApprovalDoc "p1" 9 100 8 200 exPendingGlz
    (by decide) (by decide)
  exact ⟨h.2.2.1, h.1, h.2.2.2.2.1⟩

theorem dailyTick_trigger (d : Doc) (today : String) (now : Nat)
    (hen : d.config.enabled = true)
    (hch : d.config.drop_channel_id.isNone = false)
    (hguard : d.meta.last_daily_drop_date ≠ some today) :
    dailyTick d (get_daily_drop_settings d).1 (get_daily_drop_settings d).2.1 today now
      = (markDropped d now today, dropBatch d) := by
  simp [dailyTick, markDropped, dropBatch, hen, hch, hguard]

theorem dailyTick_cases (d : Doc) (h m : Nat) (today : String) (now : Nat) :
    dailyTick d h m today now = (d, [])
    ∨ (d.config.enabled = true ∧ d.config.drop_channel_id.isNone = false
       ∧ h = (get_daily_drop_settings d).1 ∧ m = (get_daily_drop_settings d).2.1
       ∧ d.meta.last_daily_drop_date ≠ some today
       ∧ dailyTick d h m today now = (markDropped d now today, dropBatch d)) := by
  cases hen : d.config.enabled with
  | false => exact Or.inl (by simp [dailyTick, hen])
  | true =>
      cases hch : d.config.drop_channel_id.isNone with
      | true => exact Or.inl (by simp [dailyTick, hch])
      | false =>
          by_cases htm : h = (get_daily_drop_settings d).1
              ∧ m = (get_daily_drop_settings d).2.1
          · by_cases hg : d.meta.last_daily_drop_date = some today
            · exact Or.inl (dailyTick_guard d h m today now hg)
            · obtain ⟨rfl, rfl⟩ := htm
              exact Or.inr ⟨rfl, rfl, rfl, rfl, hg,
                dailyTick_trigger d today now hen hch hg⟩
          · exact Or.inl (by simp [dailyTick, htm])

theorem markDropped_meta (d : Doc) (now : Nat) (today : String) :
    (markDropped d now today).meta.last_daily_drop_date = some today := rfl

/-- C9: the out-of-band random release marks exactly the chosen pending
candidate as dropped — the store before and after differ only in that one
record's `dropped_at` — and leaves `meta` (the daily idempotency marker
included), the config, the cooldowns and the wins untouched. -/
theorem random_release_frame (d : Doc) (k now : Nat) (g : Glaze)
    (hen : d.config.enabled = true)
    (hch : d.config.drop_channel_id.isNone = false)
    (hk : (pendingCandidates d).get? k = some g)
    (hnd : (d.glazes.map Glaze.id).Nodup) :
    ∃ pre post,
      d.glazes = pre ++ g :: post
      ∧ random_drop d k now =
          some { d with glazes := pre ++ { g with dropped_at := some now } :: post }
      ∧ g.dropped_at = none
      ∧ ({ d with glazes := pre ++ { g with dropped_at := some now } :: post } : Doc).meta
          = d.meta
      ∧ ({ d with glazes := pre ++ { g with dropped_at := some now } :: post } : Doc).config
          = d.config
      ∧ ({ d with glazes := pre ++ { g with dropped_at := some now } :: post } : Doc).cooldowns
          = d.cooldowns
      ∧ ({ d with glazes := pre ++ { g with dropped_at := some now } :: post } : Doc).wins
          = d.wins := by
  have hg : g ∈ pendingCandidates d := List.get?_mem hk
  have hgl : g ∈ d.glazes ∧ candidateB g = true := List.mem_filter.mp hg
  have hdrop : g.dropped_at = none := by
    have hc := hgl.2
    simp only [candidateB, Bool.and_eq_true, Option.isNone_iff_eq_none] at hc
    exact hc.2
  obtain ⟨pre, post, hsplit⟩ := List.append_of_mem hgl.1
  have hpre : ∀ p ∈ pre, p.id ≠ g.id := by
    intro p hp he
    rw [hsplit, List.map_append, List.map_cons] at hnd
    rcases List.nodup_append.mp hnd with ⟨_, _, hdisj⟩
    exact hdisj (List.mem_map_of_mem Glaze.id hp)
      (he ▸ List.mem_cons_self g.id (post.map Glaze.id))
  refine ⟨pre, post, hsplit, ?_, hdrop, rfl, rfl, rfl, rfl⟩
  have hupd : updateById d.glazes g.id (fun x => { x with dropped_at := some now })
      = pre ++ { g with dropped_at := some now } :: post := by
    rw [hsplit, updateById_append pre post g g.id _ hpre rfl]
  have hk2 : (pendingCandidates d)[k]? = some g := by simpa using hk
  simp [random_drop, hen, hch, hk2, hupd]

/-- C9 witness: with five candidates, releasing the third marks only it
as dropped and changes nothing else. -/
theorem random_release_frame_witness :
    (mkGlz "s3" 13 4).dropped_at = none
    ∧ random_drop exSchedDoc 2 77 =
        some { exSchedDoc with glazes :=
          [mkGlz "s1" 11 5, mkGlz "s2" 12 1,
           { mkGlz "s3" 13 4 with dropped_at := some 77 },
           mkGlz "s4" 14 2, mkGlz "s5" 15 3] } := by
  obtain ⟨pre, post, h1, h2, h3, -, -, -, -⟩ :=
    random_release_frame exSchedDoc 2 77 (mkGlz "s3" 13 4)
      (by decide) (by decide) (by decide) (by decide)
  exact ⟨h3, by decide⟩

/-- C10 (amended): whenever the daily check triggers — the current time
matches the EFFECTIVE drop time of `_get_daily_drop_settings` (a stored 0
hour falls back to 17 via Python falsiness) and the date guard differs
from today — the resulting store has `meta.last_daily_drop_date = today`,
also when the candidate set is empty and nothing is released, and from
then on no tick that day changes the store or releases anything, even
after a new submission is appended. -/
theorem daily_marker (d : Doc) (h m now : Nat) (today : String)
    (hen : d.config.enabled = true)
    (hch : d.config.drop_channel_id.isNone = false)
    (hh : h = (get_daily_drop_settings d).1)
    (hm : m = (get_daily_drop_settings d).2.1)
    (hguard : d.meta.last_daily_drop_date ≠ some today) :
    (dailyTick d h m today now).1.meta.last_daily_drop_date = some today
    ∧ (pendingCandidates d = [] →
        (dailyTick d h m today now).2 = []
        ∧ (dailyTick d h m today now).1.glazes = d.glazes)
    ∧ (∀ e : Doc, e.meta.last_daily_drop_date = some today →
        ∀ h2 m2 n2 : Nat, dailyTick e h2 m2 today n2 = (e, []))
    ∧ (∀ s2 r : Nat, ∀ m2 : String, ∀ n2 : Nat, ∀ mk2 gid : String, ∀ h2 m2b n3 : Nat,
        dailyTick ((glaze_submit (dailyTick d h m today now).1 s2 r m2 n2 mk2 gid).2)
            h2 m2b today n3
          = ((glaze_submit (dailyTick d h m today now).1 s2 r m2 n2 mk2 gid).2, [])) := by
  subst hh hm
  have htr := dailyTick_trigger d today now hen hch hguard
  refine ⟨by rw [htr]; exact markDropped_meta d now today, ?_, ?_, ?_⟩
  · intro hempty
    rw [htr]
    constructor
    · simp [dropBatch, hempty, sortByLe]
      cases hlim : (get_daily_drop_settings d).2.2 <;> simp
    · have hids : (dropBatch d).map Glaze.id = [] := by
        simp [dropBatch, hempty, sortByLe]
        cases hlim : (get_daily_drop_settings d).2.2 <;> simp
      simp [markDropped, hids]
  · intro e he h2 m2 n2
    exact dailyTick_guard e h2 m2 today n2 he
  · intro s2 r m2 n2 mk2 gid h2 m2b n3
    apply dailyTick_guard
    rw [glaze_submit_meta, htr]
    rfl

/-- C10 witness: on an empty candidate set the triggered check releases
nothing but still sets the date marker, and a tick after a fresh
submission that same day is a no-op. -/
theorem daily_marker_witness :
    (dailyTick baseDoc 17 0 "2026-01-03" 5).1.meta.last_daily_drop_date = some "2026-01-03"
    ∧ (dailyTick baseDoc 17 0 "2026-01-03" 5).2 = []
    ∧ (dailyTick baseDoc 17 0 "2026-01-03" 5).1.glazes = baseDoc.glazes
    ∧ dailyTick ((glaze_submit (dailyTick baseDoc 17 0 "2026-01-03" 5).1
          1 2 "a lovely message" 6 "2026-01" "z1").2) 17 0 "2026-01-03" 7
        = ((glaze_submit (dailyTick baseDoc 17 0 "2026-01-03" 5).1
          1 2 "a lovely message" 6 "2026-01" "z1").2, []) := by
  have h := daily_marker baseDoc 17 0 5 "2026-01-03"
    (by decide) (by decide) (by decide) (by decide) (by decide)
  have he := h.2.1 (by decide)
  exact ⟨h.1, he.1, he.2, h.2.2.2 1 2 "a lovely message" 6 "2026-01" "z1" 17 0 7⟩

/-- C2 (amended): a daily tick that changes anything (or releases
anything) can only have run with the current hour:minute equal to the
EFFECTIVE drop time of `_get_daily_drop_settings` — the stored time after
Python's falsy-`or` fallback, under which a stored 0 hour means 17 — with
the date guard unset for today; immediately afterwards the guard is set,
so a second check in the same minute — and any further tick that day —
releases nothing and leaves the store unchanged, giving at most one
release per calendar day. -/
theorem daily_once (d : Doc) (h m now : Nat) (today : String)
    (hfire : dailyTick d h m today now ≠ (d, [])) :
    (h = (get_daily_drop_settings d).1 ∧ m = (get_daily_drop_settings d).2.1
      ∧ d.meta.last_daily_drop_date ≠ some today)
    ∧ dailyTick (dailyTick d h m today now).1 h m today now
        = ((dailyTick d h m today now).1, [])
    ∧ ∀ ticks : List (Nat × Nat × Nat),
        runTicks today (dailyTick d h m today now).1 ticks
          = ((dailyTick d h m today now).1, 0) := by
  rcases dailyTick_cases d h m today now with hno | ⟨hen, hch, hh, hm, hg, htr⟩
  · exact absurd hno hfire
  · have hmeta : (dailyTick d h m today now).1.meta.last_daily_drop_date = some today := by
      rw [htr]
      rfl
    exact ⟨⟨hh, hm, hg⟩,
      dailyTick_guard _ h m today now hmeta,
      fun ticks => runTicks_guard _ today ticks hmeta⟩

/-- C2 witness: a firing tick at 17:00 satisfies the guard conditions, and
repeating the check in the same minute (or across later ticks that day)
releases nothing further. -/
theorem daily_once_witness :
    dailyTick exSchedDoc 17 0 "2026-01-02" 99 ≠ (exSchedDoc, [])
    ∧ (17 = (get_daily_drop_settings exSchedDoc).1
       ∧ 0 = (get_daily_drop_settings exSchedDoc).2.1
       ∧ exSchedDoc.meta.last_daily_drop_date ≠ some "2026-01-02")
    ∧ dailyTick (dailyTick exSchedDoc 17 0 "2026-01-02" 99).1 17 0 "2026-01-02" 99
        = ((dailyTick exSchedDoc 17 0 "2026-01-02" 99).1, [])
    ∧ runTicks "2026-01-02" (dailyTick exSchedDoc 17 0 "2026-01-02" 99).1 [(17, 0, 120)]
        = ((dailyTick exSchedDoc 17 0 "2026-01-02" 99).1, 0) := by
  have hfire : dailyTick exSchedDoc 17 0 "2026-01-02" 99 ≠ (exSchedDoc, []) := by decide
  have h := daily_once exSchedDoc 17 0 99 "2026-01-02" hfire
  exact ⟨hfire, h.1, h.2.1, h.2.2 [(17, 0, 120)]⟩

theorem contains_eq_true_iff (l : List String) (a : String) :
    l.contains a = true ↔ a ∈ l := by
  induction l with
  | nil => simp
  | cons x xs ih => simp [List.contains_cons] at *

theorem leCreated_total (a b : Glaze) : leCreated a b = true ∨ leCreated b a = true := by
  simp only [leCreated, decide_eq_true_eq]
  omega

theorem leCreated_trans (a b c : Glaze) (h1 : leCreated a b = true)
    (h2 : leCreated b c = true) : leCreated a c = true := by
  simp only [leCreated, decide_eq_true_eq] at *
  omega

theorem filter_mark (ids : List String) (now : Nat) (l : List Glaze) :
    ((l.map fun g =>
        if ids.contains g.id then { g with dropped_at := some now } else g).filter
      candidateB)
      = l.filter fun g => !ids.contains g.id && candidateB g := by
  induction l with
  | nil => rfl
  | cons g gs ih =>
      by_cases hc : g.id ∈ ids
      all_goals simp [List.map_cons, List.filter_cons, candidateB, hc] at ih ⊢
      all_goals first
        | exact ih
        | rw [ih]

theorem take_min {α : Type} (l : List α) (n : Nat) :
    l.take (min n l.length) = l.take n := by
  rcases Nat.le_total n l.length with h | h
  · rw [Nat.min_eq_left h]
  · rw [Nat.min_eq_right h, List.take_length, List.take_of_length_le h]

theorem dropBatch_eq_take (d : Doc) :
    dropBatch d
      = (sortByLe leCreated (pendingCandidates d)).take (dropBatch d).length := by
  unfold dropBatch
  cases hlim : (get_daily_drop_settings d).2.2 with
  | all => rw [List.take_length]
  | count n =>
      simp only [List.length_take]
      rw [Nat.min_eq_left (Nat.min_le_right n _)]

theorem markId (now : Nat) (ids : List String) (x : Glaze) :
    ((fun g => if ids.contains g.id then { g with dropped_at := some now } else g) x).id
      = x.id := by
  by_cases hx : x.id ∈ ids <;> simp [hx]

theorem pendingCandidates_markDropped (d : Doc) (now : Nat) (today : String) :
    pendingCandidates (markDropped d now today)
      = (pendingCandidates d).filter
          fun g => !((dropBatch d).map Glaze.id).contains g.id := by
  show ((d.glazes.map _).filter candidateB) = _
  rw [filter_mark]
  unfold pendingCandidates
  rw [List.filter_filter]

/-- C3: a triggered daily release delivers `dropBatch` — the pending
candidates oldest first, truncated to a numeric limit, or all of them on
the `"all"` sentinel (after which no candidate remains); every batch
member is marked dropped, every unselected candidate stays a candidate,
every released glaze is no newer than every remaining candidate, and the
candidate count decreases by exactly the batch size. -/
theorem daily_limit_selection (d : Doc) (h m now : Nat) (today : String)
    (hen : d.config.enabled = true)
    (hch : d.config.drop_channel_id.isNone = false)
    (hh : h = (get_daily_drop_settings d).1)
    (hm : m = (get_daily_drop_settings d).2.1)
    (hguard : d.meta.last_daily_drop_date ≠ some today)
    (hnd : (d.glazes.map Glaze.id).Nodup) :
    (dailyTick d h m today now).2 = dropBatch d
    ∧ (∀ n, (get_daily_drop_settings d).2.2 = DropLimit.count n →
        dropBatch d = (sortByLe leCreated (pendingCandidates d)).take n)
    ∧ ((get_daily_drop_settings d).2.2 = DropLimit.all →
        dropBatch d = sortByLe leCreated (pendingCandidates d)
        ∧ pendingCandidates (dailyTick d h m today now).1 = [])
    ∧ (∀ g ∈ dropBatch d,
        findById (dailyTick d h m today now).1.glazes g.id
          = some { g with dropped_at := some now })
    ∧ (∀ g ∈ pendingCandidates d, g.id ∉ (dropBatch d).map Glaze.id →
        g ∈ pendingCandidates (dailyTick d h m today now).1)
    ∧ (∀ g ∈ dropBatch d, ∀ g2 ∈ pendingCandidates (dailyTick d h m today now).1,
        g.created_at ≤ g2.created_at)
    ∧ (pendingCandidates (dailyTick d h m today now).1).length + (dropBatch d).length
        = (pendingCandidates d).length := by
  subst hh hm
  have htr := dailyTick_trigger d today now hen hch hguard
  rw [htr]
  have hk := dropBatch_eq_take d
  have hsplit : dropBatch d
      ++ (sortByLe leCreated (pendingCandidates d)).drop (dropBatch d).length
      = sortByLe leCreated (pendingCandidates d) := by
    nth_rewrite 1 [hk]
    exact List.take_append_drop _ _
  have hmem_batch_sorted : ∀ g ∈ dropBatch d, g ∈ sortByLe leCreated (pendingCandidates d) := by
    intro g hg
    rw [← hsplit]
    exact List.mem_append_left _ hg
  have hpcm := pendingCandidates_markDropped d now today
  have hstay : ∀ g ∈ pendingCandidates d, g.id ∉ (dropBatch d).map Glaze.id →
      g ∈ pendingCandidates (markDropped d now today) := by
    intro g hg hnotin
    rw [hpcm]
    refine List.mem_filter.mpr ⟨hg, ?_⟩
    simp [hnotin]
  have hafter : ∀ g2 ∈ pendingCandidates (markDropped d now today),
      g2 ∈ pendingCandidates d ∧ g2.id ∉ (dropBatch d).map Glaze.id := by
    intro g2 hg2
    rw [hpcm] at hg2
    rcases List.mem_filter.mp hg2 with ⟨h1, h2⟩
    refine ⟨h1, ?_⟩
    simpa using h2
  refine ⟨rfl, ?_, ?_, ?_, hstay, ?_, ?_⟩
  · intro n hlim
    simp only [dropBatch, hlim]
    exact take_min _ _
  · intro hlim
    have hbatch : dropBatch d = sortByLe leCreated (pendingCandidates d) := by
      simp only [dropBatch, hlim]
    refine ⟨hbatch, ?_⟩
    rw [hpcm]
    apply List.filter_eq_nil_iff.mpr
    intro g hg
    have hgm : g.id ∈ (dropBatch d).map Glaze.id := by
      rw [hbatch]
      exact List.mem_map_of_mem Glaze.id ((mem_sortByLe leCreated g _).mpr hg)
    simp [hgm]
  · intro g hg
    have hgc : g ∈ pendingCandidates d :=
      (mem_sortByLe leCreated g _).mp (hmem_batch_sorted g hg)
    have hgl : g ∈ d.glazes := (List.mem_filter.mp hgc).1
    have hgm : g.id ∈ (dropBatch d).map Glaze.id := List.mem_map_of_mem Glaze.id hg
    have hcond : ((dropBatch d).map Glaze.id).contains g.id = true :=
      (contains_eq_true_iff _ _).mpr hgm
    show findById (d.glazes.map _) g.id = _
    rw [findById_map _ _ _ (markId now ((dropBatch d).map Glaze.id)),
      findById_of_nodup d.glazes g hgl hnd, Option.map_some', if_pos hcond]
  · intro g hg g2 hg2
    rcases hafter g2 hg2 with ⟨hg2c, hg2n⟩
    have hg2s : g2 ∈ sortByLe leCreated (pendingCandidates d) :=
      (mem_sortByLe leCreated g2 _).mpr hg2c
    have hg2d : g2 ∈ (sortByLe leCreated (pendingCandidates d)).drop (dropBatch d).length := by
      rcases List.mem_append.mp (by rw [hsplit]; exact hg2s) with hin | hin
      · exact absurd (List.mem_map_of_mem Glaze.id hin) hg2n
      · exact hin
    have hpw := pairwise_sortByLe leCreated leCreated_total leCreated_trans (pendingCandidates d)
    rw [← hsplit] at hpw
    have hle := (List.pairwise_append.mp hpw).2.2 g hg g2 hg2d
    simpa [leCreated] using hle
  · have hndp : ((pendingCandidates d).map Glaze.id).Nodup :=
      ((List.filter_sublist d.glazes).map Glaze.id).nodup hnd
    have hnds : ((sortByLe leCreated (pendingCandidates d)).map Glaze.id).Nodup :=
      (((sortByLe_perm leCreated (pendingCandidates d)).map Glaze.id).nodup_iff).mpr hndp
    have hdisj : ∀ g2 ∈ (sortByLe leCreated (pendingCandidates d)).drop (dropBatch d).length,
        g2.id ∉ (dropBatch d).map Glaze.id := by
      intro g2 hg2 hcontra
      rw [← hsplit, List.map_append] at hnds
      rcases List.nodup_append.mp hnds with ⟨-, -, hdj⟩
      exact hdj hcontra (List.mem_map_of_mem Glaze.id hg2)
    have hfilter : (sortByLe leCreated (pendingCandidates d)).filter
        (fun g => !((dropBatch d).map Glaze.id).contains g.id)
        = (sortByLe leCreated (pendingCandidates d)).drop (dropBatch d).length := by
      nth_rewrite 1 [← hsplit]
      rw [List.filter_append]
      have h1 : (dropBatch d).filter
          (fun g => !((dropBatch d).map Glaze.id).contains g.id) = [] := by
        apply List.filter_eq_nil_iff.mpr
        intro g hg
        simp [List.mem_map_of_mem Glaze.id hg]
      have h2 : ((sortByLe leCreated (pendingCandidates d)).drop (dropBatch d).length).filter
          (fun g => !((dropBatch d).map Glaze.id).contains g.id)
          = (sortByLe leCreated (pendingCandidates d)).drop (dropBatch d).length := by
        apply List.filter_eq_self.mpr
        intro g hg
        simp [hdisj g hg]
      rw [h1, h2, List.nil_append]
    have hperm : (pendingCandidates (markDropped d now today)).Perm
        ((sortByLe leCreated (pendingCandidates d)).drop (dropBatch d).length) := by
      rw [hpcm, ← hfilter]
      exact ((sortByLe_perm leCreated (pendingCandidates d)).filter _).symm
    have hlen1 := hperm.length_eq
    have hlen2 : (dropBatch d).length ≤ (sortByLe leCreated (pendingCandidates d)).length := by
      rw [hk, List.length_take]
      omega
    have hlen3 := length_sortByLe leCreated (pendingCandidates d)
    rw [hlen1, List.length_drop]
    omega

/-- C3 witness: with limit 3 and five candidates exactly the three oldest
are released and two remain; with the `"all"` sentinel all five go and
none remains. -/
theorem daily_limit_selection_witness :
    (dailyTick exSchedDoc 17 0 "2026-01-02" 99).2
      = (sortByLe leCreated (pendingCandidates exSchedDoc)).take 3
    ∧ (dailyTick exSchedDoc 17 0 "2026-01-02" 99).2.length = 3
    ∧ (pendingCandidates (dailyTick exSchedDoc 17 0 "2026-01-02" 99).1).length = 2
    ∧ (dailyTick exSchedAllDoc 17 0 "2026-01-02" 99).2
      = sortByLe leCreated (pendingCandidates exSchedAllDoc)
    ∧ (dailyTick exSchedAllDoc 17 0 "2026-01-02" 99).2.length = 5
    ∧ pendingCandidates (dailyTick exSchedAllDoc 17 0 "2026-01-02" 99).1 = [] := by
  have h1 := daily_limit_selection exSchedDoc 17 0 99 "2026-01-02"
    (by decide) (by decide) (by decide) (by decide) (by decide) (by decide)
  have h2 := daily_limit_selection exSchedAllDoc 17 0 99 "2026-01-02"
    (by decide) (by decide) (by decide) (by decide) (by decide) (by decide)
  refine ⟨?_, by decide, by decide, ?_, by decide, (h2.2.2.1 (by decide)).2⟩
  · rw [h1.1, h1.2.1 3 (by decide)]
  · rw [h2.1, (h2.2.2.1 (by decide)).1]

theorem mark_deleted_eq (now : Nat) (ids : List String) (x : Glaze) :
    ((fun g => if ids.contains g.id then { g with dropped_at := some now } else g) x).deleted
      = x.deleted := by
  by_cases hx : x.id ∈ ids <;> simp [hx]

theorem step_preserves_deleted (gid : String) (d : Doc) (op : Op)
    (hav : opAvoids gid op)
    (hdel : ∀ g ∈ d.glazes, g.id = gid → g.deleted = true) :
    ∀ g ∈ (step d op).glazes, g.id = gid → g.deleted = true := by
  cases op with
  | submit s r msg now mk gid0 =>
      intro g hg hid
      rcases glaze_submit_glazes_mem d s r msg now mk gid0 g hg with hmem | hnew
      · exact hdel g hmem hid
      · exact absurd (hnew.symm.trans hid) hav
  | approve gid0 a t =>
      show ∀ g ∈ (match approve_glaze d gid0 a t with
          | ModResult.ok e => e | _ => d).glazes, g.id = gid → g.deleted = true
      cases hf : findById d.glazes gid0 with
      | none =>
          have hred : approve_glaze d gid0 a t = ModResult.notFound := by
            simp [approve_glaze, hf]
          rw [hred]
          exact hdel
      | some g0 =>
          by_cases hs : g0.approval_status ≠ "pending"
          · have hred : approve_glaze d gid0 a t = ModResult.alreadyProcessed := by
              simp [approve_glaze, hf, hs]
            rw [hred]
            exact hdel
          · have hred : approve_glaze d gid0 a t = ModResult.ok
                { d with glazes := updateById d.glazes gid0 (approveMut a t) } := by
              simp only [approve_glaze, hf, if_neg hs]
            rw [hred]
            exact updateById_pred d.glazes gid0 _ _ hdel
              (fun x hx hid => by simpa [approveMut] using hx (by simpa [approveMut] using hid))
  | decline gid0 a t =>
      show ∀ g ∈ (match decline_glaze d gid0 a t with
          | ModResult.ok e => e | _ => d).glazes, g.id = gid → g.deleted = true
      cases hf : findById d.glazes gid0 with
      | none =>
          have hred : decline_glaze d gid0 a t = ModResult.notFound := by
            simp [decline_glaze, hf]
          rw [hred]
          exact hdel
      | some g0 =>
          by_cases hs : g0.approval_status ≠ "pending"
          · have hred : decline_glaze d gid0 a t = ModResult.alreadyProcessed := by
              simp [decline_glaze, hf, hs]
            rw [hred]
            exact hdel
          · have hred : decline_glaze d gid0 a t = ModResult.ok
                { d with glazes := updateById d.glazes gid0 (declineMut a t) } := by
              simp only [decline_glaze, hf, if_neg hs]
            rw [hred]
            exact updateById_pred d.glazes gid0 _ _ hdel
              (fun x hx hid => by simp [declineMut])
  | modDelete gid0 =>
      show ∀ g ∈ ((delete_scold d gid0).getD d).glazes, g.id = gid → g.deleted = true
      cases hf : findById d.glazes gid0 with
      | none =>
          have hred : delete_scold d gid0 = none := by
            simp [delete_scold, hf]
          rw [hred]
          exact hdel
      | some g0 =>
          by_cases hs : g0.deleted = true
          · have hred : delete_scold d gid0 = none := by
              simp [delete_scold, hf, hs]
            rw [hred]
            exact hdel
          · have hred : delete_scold d gid0 = some
                { d with glazes := updateById d.glazes gid0 (fun x => { x with deleted := true }) } := by
              simp only [delete_scold, hf, if_neg hs]
            rw [hred]
            exact updateById_pred d.glazes gid0 _ _ hdel (fun x hx hid => by simp)
  | report gid0 =>
      show ∀ g ∈ ((report_glaze d gid0).getD d).glazes, g.id = gid → g.deleted = true
      cases hf : findById d.glazes gid0 with
      | none =>
          have hred : report_glaze d gid0 = none := by
            simp [report_glaze, hf]
          rw [hred]
          exact hdel
      | some g0 =>
          by_cases hs : g0.deleted = true
          · have hred : report_glaze d gid0 = none := by
              simp [report_glaze, hf, hs]
            rw [hred]
            exact hdel
          · have hred : report_glaze d gid0 = some
                { d with glazes := updateById d.glazes gid0 (fun x => { x with reported := true }) } := by
              simp only [report_glaze, hf, if_neg hs]
            rw [hred]
            exact updateById_pred d.glazes gid0 _ _ hdel
              (fun x hx hid => by simpa using hx (by simpa using hid))
  | randomRelease k now =>
      show ∀ g ∈ ((random_drop d k now).getD d).glazes, g.id = gid → g.deleted = true
      by_cases hen : (!d.config.enabled) = true
      · have hred : random_drop d k now = none := by
          simp [random_drop, hen]
        rw [hred]
        exact hdel
      · by_cases hch : d.config.drop_channel_id.isNone = true
        · have hred : random_drop d k now = none := by
            simp only [random_drop, hen, hch]
            simp
          rw [hred]
          exact hdel
        · cases hp : (pendingCandidates d).get? k with
          | none =>
              have hp2 : (pendingCandidates d)[k]? = none := by simpa using hp
              have hred : random_drop d k now = none := by
                simp [random_drop, hen, hch, hp2]
              rw [hred]
              exact hdel
          | some g0 =>
              have hp2 : (pendingCandidates d)[k]? = some g0 := by simpa using hp
              have hred : random_drop d k now = some
                  { d with glazes := updateById d.glazes g0.id (fun x => { x with dropped_at := some now }) } := by
                simp [random_drop, hen, hch, hp2]
              rw [hred]
              exact updateById_pred d.glazes g0.id _ _ hdel
                (fun x hx hid => by simpa using hx (by simpa using hid))
  | tick h m today now =>
      show ∀ g ∈ ((dailyTick d h m today now).1).glazes, g.id = gid → g.deleted = true
      rcases dailyTick_cases d h m today now with hno | ⟨-, -, -, -, -, htr⟩
      · rw [hno]
        exact hdel
      · rw [htr]
        intro g hg hid
        rcases List.mem_map.mp hg with ⟨x, hx, hgx⟩
        have hgid : g.id = x.id := by
          rw [← hgx]
          exact markId now ((dropBatch d).map Glaze.id) x
        have hdeq : g.deleted = x.deleted := by
          rw [← hgx]
          exact mark_deleted_eq now ((dropBatch d).map Glaze.id) x
        rw [hdeq]
        exact hdel x hx (hgid ▸ hid)

theorem foldl_preserves_deleted (gid : String) (ops : List Op) :
    ∀ d : Doc, (∀ op ∈ ops, opAvoids gid op) →
    (∀ g ∈ d.glazes, g.id = gid → g.deleted = true) →
    ∀ g ∈ (ops.foldl step d).glazes, g.id = gid → g.deleted = true := by
  induction ops with
  | nil =>
      intro d _ hdel
      exact hdel
  | cons op rest ih =>
      intro d hav hdel
      rw [List.foldl_cons]
      exact ih (step d op) (fun o ho => hav o (List.mem_cons_of_mem _ ho))
        (step_preserves_deleted gid d op (hav op (List.mem_cons_self _ _)) hdel)

/-- C5: once a submission is soft-deleted, it stays deleted across any
sequence of operations (submit with a fresh id, approve, decline,
moderator delete, report, random release, scheduler ticks), and it is
excluded from every recipient listing, the scheduler and random-drop
candidate set, the monthly-winner month filter, and the leaderboard
tally. -/
theorem deleted_permanent (d : Doc) (gid : String) (ops : List Op)
    (hdel : ∀ g ∈ d.glazes, g.id = gid → g.deleted = true)
    (hav : ∀ op ∈ ops, opAvoids gid op) :
    (∀ g ∈ (ops.foldl step d).glazes, g.id = gid → g.deleted = true)
    ∧ (∀ r : Nat, ∀ g ∈ listForRecipient (ops.foldl step d) r, g.id ≠ gid)
    ∧ (∀ g ∈ pendingCandidates (ops.foldl step d), g.id ≠ gid)
    ∧ (∀ mk : String, ∀ g ∈ monthGlazes (ops.foldl step d) mk, g.id ≠ gid)
    ∧ (∀ g ∈ leaderboardSent (ops.foldl step d), g.id ≠ gid) := by
  have hinv := foldl_preserves_deleted gid ops d hav hdel
  refine ⟨hinv, ?_, ?_, ?_, ?_⟩
  · intro r g hg he
    rcases List.mem_filter.mp ((mem_sortByLe _ g _).mp hg) with ⟨hmem, hcond⟩
    have := hinv g hmem he
    simp [this] at hcond
  · intro g hg he
    rcases List.mem_filter.mp hg with ⟨hmem, hcond⟩
    have := hinv g hmem he
    simp [candidateB, this] at hcond
  · intro mk g hg he
    rcases List.mem_filter.mp hg with ⟨hmem, hcond⟩
    have := hinv g hmem he
    simp [this] at hcond
  · intro g hg he
    rcases List.mem_filter.mp hg with ⟨hmem, hcond⟩
    have := hinv g hmem he
    simp [this] at hcond

/-- C5 witness: the deleted glaze `d1` never resurfaces across a fresh
submission, a report of another glaze, a scheduler tick and a random
release, and no query lists it. -/
theorem deleted_permanent_witness :
    (∀ g ∈ ([Op.submit 7 8 "such a nice person today" 50 "2026-01" "n1",
             Op.report "d2", Op.tick 17 0 "2026-01-05" 60,
             Op.randomRelease 0 70].foldl step exDeletedDoc).glazes,
        g.id = "d1" → g.deleted = true)
    ∧ (∀ g ∈ pendingCandidates
          ([Op.submit 7 8 "such a nice person today" 50 "2026-01" "n1",
            Op.report "d2", Op.tick 17 0 "2026-01-05" 60,
            Op.randomRelease 0 70].foldl step exDeletedDoc),
        g.id ≠ "d1")
    ∧ (∀ g ∈ listForRecipient
          ([Op.submit 7 8 "such a nice person today" 50 "2026-01" "n1",
            Op.report "d2", Op.tick 17 0 "2026-01-05" 60,
            Op.randomRelease 0 70].foldl step exDeletedDoc) 2,
        g.id ≠ "d1") := by
  have h := deleted_permanent exDeletedDoc "d1"
    [Op.submit 7 8 "such a nice person today" 50 "2026-01" "n1",
     Op.report "d2", Op.tick 17 0 "2026-01-05" 60, Op.randomRelease 0 70]
    (by decide) (by
      intro op hop
      fin_cases hop <;> simp [opAvoids])
  exact ⟨h.1, h.2.2.1, h.2.1 2⟩

theorem alookup_eq_none {κ α : Type} [DecidableEq κ] (m : List (κ × α)) (k : κ)
    (h : k ∉ m.map Prod.fst) : alookup m k = none := by
  induction m with
  | nil => rfl
  | cons kv rest ih =>
      obtain ⟨k0, v0⟩ := kv
      rw [List.map_cons] at h
      have h1 : k0 ≠ k := fun he => h (he ▸ List.mem_cons_self _ _)
      rw [alookup, if_neg h1]
      exact ih (fun hm => h (List.mem_cons_of_mem _ hm))

theorem alookup_mstep_self (acc : List (String × JVal)) (k0 : String) (v0 : JVal) :
    alookup (mstep acc (k0, v0)) k0
      = match v0, alookup acc k0 with
        | JVal.obj src, some (JVal.obj dst) => some (JVal.obj (objUpdate dst src))
        | _, _ => some v0 := by
  cases v0 with
  | obj src =>
      cases hacc : alookup acc k0 with
      | none => simp [mstep, hacc, alookup_aset_self]
      | some dv => cases dv <;> simp [mstep, hacc, alookup_aset_self]
  | null => simp [mstep, alookup_aset_self]
  | bool b => simp [mstep, alookup_aset_self]
  | num n => simp [mstep, alookup_aset_self]
  | str s => simp [mstep, alookup_aset_self]
  | arr xs => simp [mstep, alookup_aset_self]

theorem alookup_mstep_ne (acc : List (String × JVal)) (k0 : String) (v0 : JVal)
    (k : String) (h : k ≠ k0) :
    alookup (mstep acc (k0, v0)) k = alookup acc k := by
  unfold mstep
  split
  · exact alookup_aset_ne _ _ _ _ h
  · exact alookup_aset_ne _ _ _ _ h

theorem merge_core : ∀ (data acc : List (String × JVal)) (k : String),
    (data.map Prod.fst).Nodup →
    alookup (data.foldl mstep acc) k
      = match alookup data k with
        | none => alookup acc k
        | some v => alookup (mstep acc (k, v)) k := by
  intro data
  induction data with
  | nil =>
      intro acc k _
      rfl
  | cons kv rest ih =>
      intro acc k hnd
      obtain ⟨k0, v0⟩ := kv
      rw [List.map_cons] at hnd
      rcases List.nodup_cons.mp hnd with ⟨hk0, hnd2⟩
      rw [List.foldl_cons, ih (mstep acc (k0, v0)) k hnd2]
      by_cases hkk : k = k0
      · subst hkk
        have hr : alookup rest k = none := alookup_eq_none rest k hk0
        rw [hr]
        have hd : alookup ((k, v0) :: rest) k = some v0 := by
          simp [alookup]
        rw [hd]
      · have hd : alookup ((k0, v0) :: rest) k = alookup rest k := by
          rw [alookup, if_neg (Ne.symm hkk)]
        rw [hd]
        cases hr : alookup rest k with
        | none => exact alookup_mstep_ne acc k0 v0 k hkk
        | some v =>
            show alookup (mstep (mstep acc (k0, v0)) (k, v)) k
              = alookup (mstep acc (k, v)) k
            rw [alookup_mstep_self, alookup_mstep_self,
              alookup_mstep_ne acc k0 v0 k hkk]

theorem alookup_mstep_self_of_none (acc : List (String × JVal)) (k0 : String)
    (v0 : JVal) (h : alookup acc k0 = none) :
    alookup (mstep acc (k0, v0)) k0 = some v0 := by
  rw [alookup_mstep_self]
  cases v0 <;> simp [h]

theorem alookup_objUpdate : ∀ (fs ds : List (String × JVal)) (f : String),
    (fs.map Prod.fst).Nodup →
    alookup (objUpdate ds fs) f
      = match alookup fs f with
        | some w => some w
        | none => alookup ds f := by
  intro fs
  induction fs with
  | nil =>
      intro ds f _
      rfl
  | cons kv rest ih =>
      intro ds f hnd
      obtain ⟨f0, w0⟩ := kv
      rw [List.map_cons] at hnd
      rcases List.nodup_cons.mp hnd with ⟨hf0, hnd2⟩
      have hcons : objUpdate ds ((f0, w0) :: rest) = objUpdate (aset ds f0 w0) rest := rfl
      rw [hcons, ih (aset ds f0 w0) f hnd2]
      by_cases hff : f = f0
      · subst hff
        rw [alookup_eq_none rest f hf0]
        have hd : alookup ((f, w0) :: rest) f = some w0 := by
          simp [alookup]
        rw [hd, alookup_aset_self]
      · have hd : alookup ((f0, w0) :: rest) f = alookup rest f := by
          rw [alookup, if_neg (Ne.symm hff)]
        rw [hd]
        cases hr : alookup rest f with
        | none => exact alookup_aset_ne _ _ _ _ hff
        | some w => rfl

/-- C6: a save/reload round trip is `merge_defaults` (save writes the
in-memory document verbatim; load re-reads it and merges defaults).  For
any stored document with distinct top-level keys: a missing top-level key
comes back as its default; an unknown top-level key is preserved
unchanged; the submission array (`glazes`) is reproduced identically; and
a stored dict under a known dict key (such as `config` or `meta`) keeps
every stored field identically while absent fields get their defaults. -/
theorem merge_defaults_roundtrip (data : List (String × JVal))
    (hnd : (data.map Prod.fst).Nodup) :
    (∀ k : String, alookup data k = none →
        alookup (merge_defaults data) k = alookup DEFAULT_DATA k)
    ∧ (∀ k : String, ∀ v : JVal, alookup DEFAULT_DATA k = none →
        alookup data k = some v → alookup (merge_defaults data) k = some v)
    ∧ (∀ v : JVal, alookup data "glazes" = some v →
        alookup (merge_defaults data) "glazes" = some v)
    ∧ (∀ k : String, ∀ src dst : List (String × JVal),
        alookup data k = some (JVal.obj src) →
        alookup DEFAULT_DATA k = some (JVal.obj dst) →
        (src.map Prod.fst).Nodup →
        alookup (merge_defaults data) k = some (JVal.obj (objUpdate dst src))
        ∧ (∀ f : String, ∀ w : JVal, alookup src f = some w →
            alookup (objUpdate dst src) f = some w)
        ∧ (∀ f : String, alookup src f = none →
            alookup (objUpdate dst src) f = alookup dst f)) := by
  refine ⟨?_, ?_, ?_, ?_⟩
  · intro k hk
    unfold merge_defaults
    rw [merge_core data DEFAULT_DATA k hnd, hk]
  · intro k v hdef hk
    unfold merge_defaults
    rw [merge_core data DEFAULT_DATA k hnd, hk]
    exact alookup_mstep_self_of_none DEFAULT_DATA k v hdef
  · intro v hv
    unfold merge_defaults
    rw [merge_core data DEFAULT_DATA _ hnd, hv]
    show alookup (mstep DEFAULT_DATA ("glazes", v)) "glazes" = some v
    rw [alookup_mstep_self]
    have hdg : alookup DEFAULT_DATA "glazes" = some (JVal.arr []) := rfl
    rw [hdg]
    cases v <;> rfl
  · intro k src dst hsrc hdst hnds
    refine ⟨?_, ?_, ?_⟩
    · unfold merge_defaults
      rw [merge_core data DEFAULT_DATA k hnd, hsrc]
      show alookup (mstep DEFAULT_DATA (k, JVal.obj src)) k
        = some (JVal.obj (objUpdate dst src))
      rw [alookup_mstep_self, hdst]
    · intro f w hf
      rw [alookup_objUpdate src dst f hnds, hf]
    · intro f hf
      rw [alookup_objUpdate src dst f hnds, hf]

/-- C6 witness: an old-schema document with an unknown `legacy` key, a
partial `config` and a non-empty glaze array reloads with the unknown key
and the glazes intact, the missing `wins` key defaulted, the stored
`cooldown_hours` preserved and the absent `enabled` defaulted. -/
theorem merge_defaults_roundtrip_witness :
    alookup (merge_defaults exLegacyData) "legacy" = some (JVal.num 7)
    ∧ alookup (merge_defaults exLegacyData) "glazes" = some (JVal.arr [JVal.str "x"])
    ∧ alookup (merge_defaults exLegacyData) "wins" = alookup DEFAULT_DATA "wins"
    ∧ alookup (merge_defaults exLegacyData) "config"
        = some (JVal.obj (objUpdate DEFAULT_CONFIG_FIELDS [("cooldown_hours", JVal.num 24)]))
    ∧ alookup (objUpdate DEFAULT_CONFIG_FIELDS [("cooldown_hours", JVal.num 24)])
        "cooldown_hours" = some (JVal.num 24)
    ∧ alookup (objUpdate DEFAULT_CONFIG_FIELDS [("cooldown_hours", JVal.num 24)])
        "enabled" = alookup DEFAULT_CONFIG_FIELDS "enabled" := by
  have h := merge_defaults_roundtrip exLegacyData (by decide)
  have h4 := h.2.2.2 "config" [("cooldown_hours", JVal.num 24)] DEFAULT_CONFIG_FIELDS
    rfl rfl (by decide)
  exact ⟨h.2.1 "legacy" (JVal.num 7) rfl rfl, h.2.2.1 _ rfl, h.1 "wins" rfl,
    h4.1, h4.2.1 "cooldown_hours" (JVal.num 24) rfl, h4.2.2 "enabled" rfl⟩

theorem alookup_append {κ α : Type} [DecidableEq κ] (m1 m2 : List (κ × α)) (j : κ) :
    alookup (m1 ++ m2) j
      = match alookup m1 j with
        | some v => some v
        | none => alookup m2 j := by
  induction m1 with
  | nil => rfl
  | cons kv rest ih =>
      obtain ⟨k, v⟩ := kv
      by_cases hk : k = j
      · subst hk
        rw [List.cons_append, alookup, if_pos rfl]
        rw [alookup, if_pos rfl]
      · rw [List.cons_append, alookup, if_neg hk, ih, alookup, if_neg hk]

theorem alookup_map_zero (l : List Nat) (r : Nat) :
    alookup (l.map fun x => (x, 0)) r = if r ∈ l then some 0 else none := by
  induction l with
  | nil => simp [alookup]
  | cons x xs ih =>
      rw [List.map_cons, alookup]
      by_cases hx : x = r
      · subst hx
        simp
      · rw [if_neg hx, ih]
        by_cases hr : r ∈ xs
        · simp [hr]
        · have hnm : r ∉ x :: xs := by
            intro hh
            rcases List.mem_cons.mp hh with hh1 | hh1
            · exact hx hh1.symm
            · exact hr hh1
          simp [hr, hnm]

theorem replay_ext (best : Nat) : ∀ (sorted : List Glaze)
    (r1 r2 n : List (Nat × Nat)),
    (∀ j, alookup r1 j = alookup r2 j) →
    (∀ j, alookup (sorted.foldl (replayStep best) (r1, n)).1 j
        = alookup (sorted.foldl (replayStep best) (r2, n)).1 j)
    ∧ (sorted.foldl (replayStep best) (r1, n)).2
        = (sorted.foldl (replayStep best) (r2, n)).2 := by
  intro sorted
  induction sorted with
  | nil =>
      intro r1 r2 n h
      exact ⟨h, rfl⟩
  | cons g gs ih =>
      intro r1 r2 n h
      rw [List.foldl_cons, List.foldl_cons]
      have hg := h g.recipient_id
      cases hc : alookup r1 g.recipient_id with
      | none =>
          have hc2 : alookup r2 g.recipient_id = none := by rw [← hg, hc]
          have hs1 : replayStep best (r1, n) g = (r1, n) := by
            simp [replayStep, hc]
          have hs2 : replayStep best (r2, n) g = (r2, n) := by
            simp [replayStep, hc2]
          rw [hs1, hs2]
          exact ih r1 r2 n h
      | some c =>
          have hc2 : alookup r2 g.recipient_id = some c := by rw [← hg, hc]
          have hs1 : replayStep best (r1, n) g
              = (aset r1 g.recipient_id (c + 1),
                 if c + 1 = best ∧ (alookup n g.recipient_id).isNone
                 then n ++ [(g.recipient_id, g.created_at)] else n) := by
            simp [replayStep, hc]
          have hs2 : replayStep best (r2, n) g
              = (aset r2 g.recipient_id (c + 1),
                 if c + 1 = best ∧ (alookup n g.recipient_id).isNone
                 then n ++ [(g.recipient_id, g.created_at)] else n) := by
            simp [replayStep, hc2]
          rw [hs1, hs2]
          apply ih
          intro j
          rw [alookup_aset, alookup_aset]
          by_cases hj : j = g.recipient_id
      -- both branches of the conditional lookup agree
          · simp [hj]
          · simp [hj, h j]

theorem replayNth_perm (tied2 tied : List Nat) (best : Nat) (sorted : List Glaze)
    (hp : tied2.Perm tied) :
    replayNth tied2 best sorted = replayNth tied best sorted := by
  unfold replayNth
  refine (replay_ext best sorted (tied2.map fun r => (r, 0))
    (tied.map fun r => (r, 0)) [] ?_).2
  intro j
  rw [alookup_map_zero, alookup_map_zero]
  by_cases hj : j ∈ tied
  · rw [if_pos (hp.mem_iff.mpr hj), if_pos hj]
  · rw [if_neg (fun hh => hj (hp.mem_iff.mp hh)), if_neg hj]

theorem replay_go (best : Nat) : ∀ (gs : List Glaze)
    (running nth : List (Nat × Nat)) (j cj : Nat),
    alookup running j = some cj →
    ((alookup nth j).isSome = true ∨ cj < best) →
    alookup ((gs.foldl (replayStep best) (running, nth)).2) j
      = match alookup nth j with
        | some v => some v
        | none => (occTimes j gs).get? (best - 1 - cj) := by
  intro gs
  induction gs with
  | nil =>
      intro running nth j cj hr hcoh
      cases hn : alookup nth j with
      | some v => simp [hn]
      | none => simp [hn, occTimes]
  | cons g rest ih =>
      intro running nth j cj hr hcoh
      rw [List.foldl_cons]
      by_cases hrid : g.recipient_id = j
      · subst hrid
        have hstep : replayStep best (running, nth) g
            = (aset running g.recipient_id (cj + 1),
               if cj + 1 = best ∧ (alookup nth g.recipient_id).isNone
               then nth ++ [(g.recipient_id, g.created_at)] else nth) := by
          simp [replayStep, hr]
        rw [hstep]
        have hocc : occTimes g.recipient_id (g :: rest)
            = g.created_at :: occTimes g.recipient_id rest := by
          simp [occTimes]
        cases hn : alookup nth g.recipient_id with
        | some v =>
            rw [if_neg (by simp [hn])]
            have hres := ih (aset running g.recipient_id (cj + 1)) nth
              g.recipient_id (cj + 1) (alookup_aset_self running g.recipient_id (cj + 1))
              (Or.inl (by simp [hn]))
            rw [hres, hn]
        | none =>
            by_cases hbest : cj + 1 = best
            · rw [if_pos ⟨hbest, by simp [hn]⟩]
              have hn2 : alookup (nth ++ [(g.recipient_id, g.created_at)]) g.recipient_id
                  = some g.created_at := by
                rw [alookup_append, hn]
                simp [alookup]
              have hres := ih (aset running g.recipient_id (cj + 1))
                (nth ++ [(g.recipient_id, g.created_at)])
                g.recipient_id (cj + 1) (alookup_aset_self running g.recipient_id (cj + 1))
                (Or.inl (by simp [hn2]))
              rw [hres, hn2, hocc]
              have hz : best - 1 - cj = 0 := by omega
              rw [hz]
              rfl
            · rw [if_neg (by simp [hbest])]
              have hcj : cj < best := by
                rcases hcoh with hS | hlt
                · rw [hn] at hS
                  cases hS
                · exact hlt
              have hcj1 : cj + 1 < best := by omega
              have hres := ih (aset running g.recipient_id (cj + 1)) nth
                g.recipient_id (cj + 1) (alookup_aset_self running g.recipient_id (cj + 1))
                (Or.inr hcj1)
              rw [hres, hn, hocc]
              have hidx : best - 1 - cj = (best - 1 - (cj + 1)) + 1 := by omega
              rw [hidx]
              rfl
      · have hjr : j ≠ g.recipient_id := fun hh => hrid hh.symm
        have hocc : occTimes j (g :: rest) = occTimes j rest := by
          simp [occTimes, hrid]
        cases hrg : alookup running g.recipient_id with
        | none =>
            have hstep : replayStep best (running, nth) g = (running, nth) := by
              simp [replayStep, hrg]
            rw [hstep, ih running nth j cj hr hcoh, hocc]
        | some c =>
            have hstep : replayStep best (running, nth) g
                = (aset running g.recipient_id (c + 1),
                   if c + 1 = best ∧ (alookup nth g.recipient_id).isNone
                   then nth ++ [(g.recipient_id, g.created_at)] else nth) := by
              simp [replayStep, hrg]
            rw [hstep]
            have hrun : alookup (aset running g.recipient_id (c + 1)) j = some cj := by
              rw [alookup_aset_ne running g.recipient_id j (c + 1) hjr]
              exact hr
            by_cases hcnd : c + 1 = best ∧ (alookup nth g.recipient_id).isNone
            · rw [if_pos hcnd]
              have hnl : alookup (nth ++ [(g.recipient_id, g.created_at)]) j
                  = alookup nth j := by
                rw [alookup_append]
                cases h2 : alookup nth j with
                | some v => rfl
                | none => simp [alookup, Ne.symm hjr]
              have hcoh2 : (alookup (nth ++ [(g.recipient_id, g.created_at)]) j).isSome = true
                  ∨ cj < best := by
                rw [hnl]
                exact hcoh
              rw [ih (aset running g.recipient_id (c + 1))
                (nth ++ [(g.recipient_id, g.created_at)]) j cj hrun hcoh2, hnl, hocc]
            · rw [if_neg hcnd]
              rw [ih (aset running g.recipient_id (c + 1)) nth j cj hrun hcoh, hocc]

theorem replayNth_lookup (tied : List Nat) (best : Nat) (sorted : List Glaze)
    (hbest : 1 ≤ best) (r : Nat) (hr : r ∈ tied) :
    alookup (replayNth tied best sorted) r = reachTime best r sorted := by
  unfold replayNth reachTime
  have h0 : alookup (tied.map fun x => (x, 0)) r = some 0 := by
    rw [alookup_map_zero, if_pos hr]
  rw [replay_go best sorted (tied.map fun x => (x, 0)) [] r 0 h0 (Or.inr hbest)]
  simp [alookup]

theorem bump_pos (acc : List (Nat × Nat)) (rid : Nat)
    (h : ∀ rc ∈ acc, 1 ≤ rc.2) : ∀ rc ∈ bump acc rid, 1 ≤ rc.2 := by
  induction acc with
  | nil =>
      intro rc hrc
      rcases List.mem_singleton.mp hrc with rfl
      exact Nat.le_refl 1
  | cons kv rest ih =>
      obtain ⟨r, c⟩ := kv
      intro rc hrc
      by_cases hr : r = rid
      · rw [bump, if_pos hr] at hrc
        rcases List.mem_cons.mp hrc with rfl | hrc2
        · exact Nat.le_add_left 1 c
        · exact h rc (List.mem_cons_of_mem _ hrc2)
      · rw [bump, if_neg hr] at hrc
        rcases List.mem_cons.mp hrc with rfl | hrc2
        · exact h (r, c) (List.mem_cons_self _ _)
        · exact ih (fun x hx => h x (List.mem_cons_of_mem _ hx)) rc hrc2

theorem buildCounts_pos (gs : List Glaze) :
    ∀ rc ∈ buildCounts gs, 1 ≤ rc.2 := by
  have hgen : ∀ (l : List Glaze) (acc : List (Nat × Nat)),
      (∀ rc ∈ acc, 1 ≤ rc.2) →
      ∀ rc ∈ l.foldl (fun a g => bump a g.recipient_id) acc, 1 ≤ rc.2 := by
    intro l
    induction l with
    | nil => intro acc h; exact h
    | cons g gs2 ih =>
        intro acc h
        rw [List.foldl_cons]
        exact ih (bump acc g.recipient_id) (bump_pos acc g.recipient_id h)
  exact hgen gs [] (by simp)

theorem tiedOf_spec (d : Doc) (mk : String) (r : Nat) (h : r ∈ tiedOf d mk) :
    (r, bestOf d mk) ∈ countsOf d mk := by
  unfold tiedOf at h
  rcases List.mem_filterMap.mp h with ⟨rc, hrc, hif⟩
  by_cases hc : rc.2 = bestOf d mk
  · rw [if_pos hc] at hif
    rcases Option.some.inj hif with rfl
    rw [← hc]
    exact hrc
  · rw [if_neg hc] at hif
    cases hif

theorem bestOf_pos (d : Doc) (mk : String) (h : tiedOf d mk ≠ []) :
    1 ≤ bestOf d mk := by
  rcases List.exists_mem_of_ne_nil _ h with ⟨r, hr⟩
  exact buildCounts_pos (sortedMonth d mk) (r, bestOf d mk) (tiedOf_spec d mk r hr)

theorem monthGlazes_ne (d : Doc) (mk : String) (h : countsOf d mk ≠ []) :
    (monthGlazes d mk).isEmpty = false := by
  cases hm : monthGlazes d mk with
  | cons g gs => rfl
  | nil =>
      exfalso
      apply h
      unfold countsOf sortedMonth
      rw [hm]
      rfl

/-- C1: when the per-recipient counts of a month leave more than one
recipient at the maximum `best`, and `w` is the tied recipient whose
running counter over the creation-ordered month list reaches `best`
strictly first (`reachTime`, the timestamp of its `best`-th glaze),
`compute_month_winner` returns `w` with `best` — and the tie-break
returns `w` for every permutation of the tie set, so the result does not
depend on the iteration order over the count map. -/
theorem winner_tiebreak (d : Doc) (mk : String) (w : Nat)
    (h2 : 2 ≤ (tiedOf d mk).length)
    (hw : w ∈ tiedOf d mk)
    (hmin : ∀ r ∈ tiedOf d mk, r ≠ w →
        ltN (reachTime (bestOf d mk) w (sortedMonth d mk))
            (reachTime (bestOf d mk) r (sortedMonth d mk)) = true) :
    compute_month_winner d mk = some (w, bestOf d mk)
    ∧ ∀ tied2 : List Nat, tied2.Perm (tiedOf d mk) →
        tieBreakWinner (sortedMonth d mk) (bestOf d mk) tied2 = some w := by
  have htne : tiedOf d mk ≠ [] := by
    intro h0
    rw [h0] at h2
    simp at h2
  have hbest : 1 ≤ bestOf d mk := bestOf_pos d mk htne
  have hbridge : ∀ r ∈ tiedOf d mk,
      alookup (replayNth (tiedOf d mk) (bestOf d mk) (sortedMonth d mk)) r
        = reachTime (bestOf d mk) r (sortedMonth d mk) :=
    fun r hr => replayNth_lookup (tiedOf d mk) (bestOf d mk) (sortedMonth d mk) hbest r hr
  have hmain : ∀ tied2 : List Nat, tied2.Perm (tiedOf d mk) →
      tieBreakWinner (sortedMonth d mk) (bestOf d mk) tied2 = some w := by
    intro tied2 hperm
    unfold tieBreakWinner
    rw [replayNth_perm tied2 (tiedOf d mk) (bestOf d mk) (sortedMonth d mk) hperm]
    show (sortByLe (fun a b => leN
        (alookup (replayNth (tiedOf d mk) (bestOf d mk) (sortedMonth d mk)) a)
        (alookup (replayNth (tiedOf d mk) (bestOf d mk) (sortedMonth d mk)) b))
      tied2).head? = some w
    apply sortByLe_head_eq_min
      (fun a b => leN
        (alookup (replayNth (tiedOf d mk) (bestOf d mk) (sortedMonth d mk)) a)
        (alookup (replayNth (tiedOf d mk) (bestOf d mk) (sortedMonth d mk)) b))
      (fun a b => leN_total _ _)
      (fun a b c h1 h2 => leN_trans _ _ _ h1 h2)
      tied2 w (hperm.mem_iff.mpr hw)
    intro y hy hne
    have hyt : y ∈ tiedOf d mk := hperm.mem_iff.mp hy
    rw [hbridge y hyt, hbridge w hw]
    exact leN_of_ltN _ _ (hmin y hyt hne)
  refine ⟨?_, hmain⟩
  have hcne : countsOf d mk ≠ [] := by
    intro h0
    apply htne
    unfold tiedOf
    rw [h0]
    rfl
  have hme : (monthGlazes d mk).isEmpty = false := monthGlazes_ne d mk hcne
  have hlen : (tiedOf d mk).length ≠ 1 := by omega
  unfold compute_month_winner
  rw [hme, if_neg (by simp), if_neg hlen,
    hmain (tiedOf d mk) (List.Perm.refl _)]
  rfl

/-- C1 witness: recipients 101, 102, 103 each reach two glazes in
2026-01, with the second glaze of 101 timestamped before those of 102 and
103; the winner is 101 with count 2, under every ordering of the tie set. -/
theorem winner_tiebreak_witness :
    compute_month_winner exWinnerDoc "2026-01" = some (101, 2)
    ∧ tieBreakWinner (sortedMonth exWinnerDoc "2026-01") 2 [103, 102, 101] = some 101 := by
  have hb : bestOf exWinnerDoc "2026-01" = 2 := by decide
  have h := winner_tiebreak exWinnerDoc "2026-01" 101
    (by decide) (by decide)
    (by
      intro r hr hne
      fin_cases hr
      · exact absurd rfl hne
      · decide
      · decide)
  refine ⟨by rw [h.1, hb], ?_⟩
  have h2 := h.2 [103, 102, 101] (by decide)
  rw [← hb]
  exact h2

/-- C2 counterexample: with the daily drop configured for midnight
(stored hour 0), the release fires at 17:00 — an hour different from the
configured one — and at the configured 00:00 nothing fires at all, so
"fires only when the current hour:minute equals the configured daily-drop
time" is false of the program. -/
theorem daily_time_fallback_counterexample :
    exMidnightDoc.config.daily_drop_hour = 0
    ∧ exMidnightDoc.meta.last_daily_drop_date ≠ some "2026-01-02"
    ∧ (dailyTick exMidnightDoc 17 0 "2026-01-02" 99).2 ≠ []
    ∧ (17 : Nat) ≠ 0
    ∧ dailyTick exMidnightDoc 0 0 "2026-01-02" 99 = (exMidnightDoc, []) := by
  refine ⟨rfl, by decide, by decide, by decide, by decide⟩

/-- C10 counterexample: with the daily drop configured for midnight
(stored hour 0) and the date guard unset, a tick at the configured 00:00
satisfies the claim condition "current hour:minute equals the configured
drop time and the marker differs from today", yet the program neither
sets `meta.last_daily_drop_date` nor changes the store. -/
theorem daily_marker_midnight_counterexample :
    exMidnightDoc.config.daily_drop_hour = 0
    ∧ exMidnightDoc.config.daily_drop_minute = 0
    ∧ exMidnightDoc.meta.last_daily_drop_date ≠ some "2026-01-02"
    ∧ dailyTick exMidnightDoc 0 0 "2026-01-02" 5 = (exMidnightDoc, [])
    ∧ (dailyTick exMidnightDoc 0 0 "2026-01-02" 5).1.meta.last_daily_drop_date
        ≠ some "2026-01-02" := by
  refine ⟨rfl, rfl, by decide, by decide, by decide⟩
